import Mathlib

/-
  Verification development for the helm-parser repository.

  The definitions below are a shallow embedding of the Go sources:
  - yaml_walker.go            (line model, path stack)
  - values_parser.go          (wrapper detection)
  - unnamed/part_002          (mergeTolerations, handleComplexNestedBlock,
                               injectBlockLines, block classification)
  - inline_injector_test.go, lines 905-1418 variant
                              (injectBlockIntoValuesPath, podConfigKeys)
  - custom_values_mod.go      (injectNewValuesIntoRoot, findAndRemoveRootKey)
  - custom_scheme_mods.go     (injectInlinePodSpec and helpers)
  - update-registry.go        (CheckImagesExist worker body)
  - process_chart.go          (backupValuesFile, KnownWrapperKeys)

  Go strings are modelled as Lean String; Go `strings.Split(s, "\n")`,
  `strings.TrimSpace`, `strings.HasPrefix`, `strings.Contains`,
  `strings.SplitN(s, ":", 2)` and `strings.Repeat(" ", n)` are re-implemented
  below over the character list so that all definitions are executable and
  provable by kernel reduction.

  The yaml.v2 library calls (Unmarshal / Marshal) are modelled by a small
  block-style YAML parser and encoder covering exactly the dialect the
  sources rely on (block mappings, block sequences of flat mappings,
  plain scalars, `[]` / `\x7b\x7d` inline markers, comments and blanks);
  flow collections other than the two empty markers are rejected, which is
  also where yaml.v2 fails on the malformed inputs used in the theorems.
-/

set_option maxRecDepth 8192

namespace HelmParser

/-! ### String primitives (Go strings package equivalents) -/

/-- Build a `String` back from a character list. -/
def chStr (cs : List Char) : String := String.mk cs

/-- Whitespace test used by Go `strings.TrimSpace` (ASCII subset relevant here). -/
def isSpaceCh (c : Char) : Bool := c == ' ' || c == '\t' || c == '\n' || c == '\r'

/-- Go `strings.TrimSpace`. -/
def trimSpace (s : String) : String :=
  chStr (((s.data.dropWhile isSpaceCh).reverse.dropWhile isSpaceCh).reverse)

/-- Count of leading space characters. -/
def countLeadingSpaces : List Char → Nat
  | [] => 0
  | c :: r => if c = ' ' then countLeadingSpaces r + 1 else 0

/-- getIndentation / GetIndentation: number of leading spaces (yaml_walker.go:49). -/
def getIndentation (line : String) : Nat := countLeadingSpaces line.data

/-- Test whether `pat` is a prefix of the character list. -/
def listPrefixB : List Char → List Char → Bool
  | [], _ => true
  | _ :: _, [] => false
  | a :: as, b :: bs => a == b && listPrefixB as bs

/-- Go `strings.HasPrefix s p`. -/
def strStartsWith (s p : String) : Bool := listPrefixB p.data s.data

/-- Go `strings.Contains s ":"` specialised to one character. -/
def containsColon (s : String) : Bool := s.data.contains ':'

/-- Substring search helper for Go `strings.Contains`. -/
def containsSubAux (pat : List Char) : List Char → Bool
  | [] => listPrefixB pat []
  | c :: r => listPrefixB pat (c :: r) || containsSubAux pat r

/-- Go `strings.Contains`. -/
def containsSubstr (s pat : String) : Bool := containsSubAux pat.data s.data

/-- Split at the first colon: Go `strings.SplitN(s, ":", 2)` when it yields two parts. -/
def splitFirstColonAux : List Char → Option (List Char × List Char)
  | [] => none
  | c :: r =>
    if c = ':' then some ([], r)
    else match splitFirstColonAux r with
      | some (a, b) => some (c :: a, b)
      | none => none

/-- Split a string at its first colon, if any. -/
def splitFirstColon (s : String) : Option (String × String) :=
  (splitFirstColonAux s.data).map (fun p => (chStr p.1, chStr p.2))

/-- Splitting on newline characters, keeping empty pieces (Go `strings.Split(s, "\n")`). -/
def splitNlAux : List Char → List (List Char)
  | [] => [[]]
  | c :: r =>
    if c = '\n' then [] :: splitNlAux r
    else match splitNlAux r with
      | h :: t => (c :: h) :: t
      | [] => [[c]]

/-- Go `strings.Split(content, "\n")`. -/
def splitLines (s : String) : List String := (splitNlAux s.data).map chStr

/-- Go `strings.Join(lines, "\n")`. -/
def joinLines : List String → String
  | [] => ""
  | [l] => l
  | l :: rest => l ++ "\n" ++ joinLines (rest)

/-- Go `strings.Repeat(" ", n)`. -/
def repeatSpaces (n : Nat) : String := chStr (List.replicate n ' ')

/-- Number of leading whitespace characters (for YAMLLine.ValueIndent). -/
def countLeadingWS : List Char → Nat
  | [] => 0
  | c :: r => if isSpaceCh c then countLeadingWS r + 1 else 0

/-! ### Process-wide constants (process_chart.go:25-37, inline_injector_test.go:913-920) -/

/-- KnownWrapperKeys (process_chart.go): virtual-root wrapper markers. -/
def KnownWrapperKeys : List String := ["_internal_defaults_do_not_set"]

/-- podConfigKeys in the inline_injector_test.go:915 variant that owns
injectBlockIntoValuesPath (lines 1014-1249). -/
def podConfigKeys : List String :=
  ["annotations", "tolerations", "affinity", "nodeSelector", "priorityClassName"]

/-! ### Line model (yaml_walker.go) -/

/-- YAMLLine (yaml_walker.go:9-19). -/
structure YAMLLine where
  raw : String
  trimmed : String
  indent : Nat
  isEmpty : Bool
  isComment : Bool
  key : String
  value : String
  hasColon : Bool
  valueIndent : Nat
deriving Repr, DecidableEq

/-- ParseLine (yaml_walker.go:22-46). -/
def ParseLine (line : String) : YAMLLine :=
  let trimmed := trimSpace line
  let indent := getIndentation line
  let isEmpty := trimmed == ""
  let isComment := strStartsWith trimmed "#"
  let hasColon := containsColon trimmed
  let base : YAMLLine :=
    { raw := line, trimmed := trimmed, indent := indent, isEmpty := isEmpty,
      isComment := isComment, key := "", value := "", hasColon := hasColon,
      valueIndent := 0 }
  if hasColon && !isComment then
    match splitFirstColon trimmed with
    | some (k, rest) =>
      { base with key := trimSpace k, value := trimSpace rest,
                  valueIndent := countLeadingWS rest.data }
    | none => base
  else base

/-- IsEmptyOrComment (yaml_walker.go:62-65). -/
def IsEmptyOrComment (line : String) : Bool :=
  trimSpace line == "" || strStartsWith (trimSpace line) "#"

/-! ### Path stack (yaml_walker.go:167-212); top of stack at the list head. -/

/-- PathLevel (yaml_walker.go:173-176). -/
structure PathLevel where
  indent : Nat
  key : String
deriving Repr, DecidableEq

/-- PathStack levels, most recently pushed first. -/
abbrev PathStack := List PathLevel

/-- PathStack.Push (yaml_walker.go:184). -/
def PathStack.push (st : PathStack) (indent : Nat) (key : String) : PathStack :=
  ⟨indent, key⟩ :: st

/-- PathStack.PopToIndent (yaml_walker.go:189-193): drop levels with indent ≥ the new one. -/
def PathStack.popToIndent (st : PathStack) (indent : Nat) : PathStack :=
  List.dropWhile (fun l => decide (indent ≤ l.indent)) st

/-- PathStack.CurrentPath (yaml_walker.go:196-202), outermost key first. -/
def PathStack.currentPath (st : PathStack) : List String :=
  (List.map (fun l => l.key) st).reverse

/-- ValueReference (values_parser.go:9-12). -/
structure ValueReference where
  path : List String
  key : String
deriving Repr, DecidableEq

/-- pathsMatch (part_002:14-24). -/
def pathsMatch : List String → List String → Bool
  | [], [] => true
  | a :: as, b :: bs => a == b && pathsMatch as bs
  | _, _ => false

/-! ### Generic YAML node model (stand-in for the yaml.v2 values the Go code
deserialises into: `map[string]interface\x7b\x7d` / `map[interface\x7b\x7d]interface\x7b\x7d`
/ `[]interface\x7b\x7d` / scalars / nil). Mapping keys are normalised to strings,
which is what every Go call site does right after unmarshalling. -/

inductive YamlVal where
  | str (s : String)
  | seq (xs : List YamlVal)
  | omap (es : List (String × YamlVal))
  | null
deriving Repr

/-- Assoc lookup, modelling Go map indexing `m[key]`. -/
def lookupEntry : List (String × YamlVal) → String → Option YamlVal
  | [], _ => none
  | (k, v) :: es, key => if k == key then some v else lookupEntry es key

/-- Assoc update, modelling Go map assignment `m[key] = v` for a present key. -/
def updateEntry : List (String × YamlVal) → String → YamlVal → List (String × YamlVal)
  | [], _, _ => []
  | (k, v) :: es, key, nv =>
    if k == key then (k, nv) :: es else (k, v) :: updateEntry es key nv

/-- A line that yaml ignores entirely: blank or a full-line comment. -/
def isBlankOrComment (l : String) : Bool :=
  trimSpace l == "" || strStartsWith (trimSpace l) "#"

/-- Scalar token parsing: the two empty flow markers are recognised, any other
flow-style opener is a parse failure (yaml.v2 likewise errors on the unclosed
flow tokens used in the theorems; closed non-empty flow collections are outside
the dialect the sources feed to it). -/
def parseScalarTok (v : String) : Option YamlVal :=
  if v == "[]" then some (.seq [])
  else if v == "\x7b\x7d" then some (.omap [])
  else if strStartsWith v "[" || strStartsWith v "\x7b" then none
  else some (.str v)

/-- Parser mode: a whole node, a mapping at a fixed indent, or a sequence at a
fixed indent. -/
inductive PMode where
  | node
  | mapAt (base : Nat)
  | seqAt (base : Nat)

/-- Fuel-driven block parser over pre-filtered (non-blank, non-comment) lines. -/
def parseGo : Nat → PMode → List String → Option YamlVal
  | 0, _, _ => none
  | _ + 1, .node, [] => some .null
  | fuel + 1, .node, l :: rest =>
    let base := getIndentation l
    if strStartsWith (trimSpace l) "- " then parseGo fuel (.seqAt base) (l :: rest)
    else parseGo fuel (.mapAt base) (l :: rest)
  | _ + 1, .mapAt _, [] => some (.omap [])
  | fuel + 1, .mapAt base, l :: rest =>
    if getIndentation l ≠ base then none
    else match splitFirstColon (trimSpace l) with
      | none => none
      | some (k0, rest0) =>
        let key := trimSpace k0
        let v := trimSpace rest0
        -- children: deeper lines, plus block-sequence items that yaml permits
        -- at the same indentation as their parent key
        let children := rest.takeWhile (fun l2 =>
          decide (base < getIndentation l2) ||
            (getIndentation l2 == base && strStartsWith (trimSpace l2) "- "))
        let rest2 := rest.drop children.length
        if v == "" then
          match (if children.isEmpty then some YamlVal.null else parseGo fuel .node children) with
          | none => none
          | some cv =>
            match parseGo fuel (.mapAt base) rest2 with
            | some (.omap es) => some (.omap ((key, cv) :: es))
            | _ => none
        else
          if children.isEmpty then
            match parseScalarTok v with
            | none => none
            | some sv =>
              match parseGo fuel (.mapAt base) rest2 with
              | some (.omap es) => some (.omap ((key, sv) :: es))
              | _ => none
          else none
  | _ + 1, .seqAt _, [] => some (.seq [])
  | fuel + 1, .seqAt base, l :: rest =>
    if getIndentation l ≠ base then none
    else
      let t := trimSpace l
      if strStartsWith t "- " then
        let inner := trimSpace (chStr (t.data.drop 2))
        let children := rest.takeWhile (fun l2 => decide (base < getIndentation l2))
        let rest2 := rest.drop children.length
        let item? :=
          if inner == "" then
            (if children.isEmpty then some YamlVal.null else parseGo fuel .node children)
          else parseGo fuel .node (((repeatSpaces (base + 2)) ++ inner) :: children)
        match item? with
        | none => none
        | some iv =>
          match parseGo fuel (.seqAt base) rest2 with
          | some (.seq xs) => some (.seq (iv :: xs))
          | _ => none
      else none

/-- Model of `yaml.Unmarshal([]byte(s), &m)` for `m : map[string]interface\x7b\x7d`:
`some entries` on success, `none` when yaml.v2 reports an error (including a
non-mapping document). An all-blank document leaves the map nil without error. -/
def parseYamlMap (s : String) : Option (List (String × YamlVal)) :=
  let ls := (splitLines s).filter (fun l => !(isBlankOrComment l))
  match ls with
  | [] => some []
  | l :: rest =>
    match parseGo (2 * (l :: rest).length + 4) .node (l :: rest) with
    | some (.omap es) => some es
    | _ => none

/-! ### YAML encoder (stand-in for yaml.Marshal): keys are emitted sorted, block
style, two-space nesting, sequences flush with their key — yaml.v2's output
shape for the flat structures the sources marshal. -/

/-- Byte-wise lexicographic order on strings (yaml.v2's key order for the plain
alphabetic keys used by the sources). -/
def charsLe : List Char → List Char → Bool
  | [], _ => true
  | _ :: _, [] => false
  | a :: as, b :: bs => if a = b then charsLe as bs else decide (a < b)

/-- Ordering used to sort mapping keys before encoding. -/
def strLeB (a b : String) : Bool := charsLe a.data b.data

/-- Insert into a key-sorted entry list. -/
def insertSorted (e : String × YamlVal) : List (String × YamlVal) → List (String × YamlVal)
  | [] => [e]
  | x :: xs => if strLeB e.1 x.1 then e :: x :: xs else x :: insertSorted e xs

/-- Sort entries by key. -/
def sortEntries : List (String × YamlVal) → List (String × YamlVal)
  | [] => []
  | e :: es => insertSorted e (sortEntries es)

mutual

/-- Encode sorted mapping entries at an indent, one or more lines per entry. -/
def encMapLines : Nat → Nat → List (String × YamlVal) → List String
  | 0, _, _ => []
  | _ + 1, _, [] => []
  | fuel + 1, indent, (k, v) :: es =>
    (match v with
     | .str s => [repeatSpaces indent ++ k ++ ": " ++ s]
     | .null => [repeatSpaces indent ++ k ++ ": null"]
     | .seq [] => [repeatSpaces indent ++ k ++ ": []"]
     | .omap [] => [repeatSpaces indent ++ k ++ ": \x7b\x7d"]
     | .seq (x :: xs) => (repeatSpaces indent ++ k ++ ":") :: encSeqLines fuel indent (x :: xs)
     | .omap (e :: es2) => (repeatSpaces indent ++ k ++ ":") :: encMapLines fuel (indent + 2) (sortEntries (e :: es2)))
    ++ encMapLines fuel indent es

/-- Encode sequence items at an indent; a mapping item fuses its first line with
the `- ` marker. -/
def encSeqLines : Nat → Nat → List YamlVal → List String
  | 0, _, _ => []
  | _ + 1, _, [] => []
  | fuel + 1, indent, x :: xs =>
    (match x with
     | .str s => [repeatSpaces indent ++ "- " ++ s]
     | .null => [repeatSpaces indent ++ "- null"]
     | .seq _ => [repeatSpaces indent ++ "- []"]
     | .omap es =>
       match encMapLines fuel (indent + 2) (sortEntries es) with
       | [] => [repeatSpaces indent ++ "- \x7b\x7d"]
       | first :: more =>
         (repeatSpaces indent ++ "- " ++ chStr (first.data.drop (indent + 2))) :: more)
    ++ encSeqLines fuel indent xs

end

/-- Model of `yaml.Marshal` of a string-keyed map (trailing newline included).
The fuel is an upper bound on the node count of the value being encoded;
callers derive it from the line counts of the sources the value was parsed
from (every node of a parsed value stems from at least one source line). -/
def marshalTop (fuel : Nat) (es : List (String × YamlVal)) : String :=
  joinLines (encMapLines fuel 0 (sortEntries es)) ++ "\n"

/-- Line count of a string. -/
def linesCount (s : String) : Nat := (splitLines s).length

/-- Total line count across a list of block strings. -/
def totalLinesOf (blocks : List String) : Nat := (blocks.map linesCount).sum

/-- Model of Go `fmt.Sprintf("%v", v)` for the scalar values compared by
tolerationsMatch; non-scalar nodes never occur in those fields in practice and
get a fixed marker rendering. -/
def govFmt : YamlVal → String
  | .str s => s
  | .null => "<nil>"
  | .seq _ => "<seq>"
  | .omap _ => "<map>"

/-! ### Injection-block classification and rendering (unnamed/part_002) -/

/-- isComplexNestedBlock (part_002:293-311): the key's value in some block
parses as a mapping. -/
def isComplexNestedBlock (key : String) : List String → Bool
  | [] => false
  | b :: bs =>
    match parseYamlMap b with
    | none => isComplexNestedBlock key bs
    | some bd =>
      match lookupEntry bd key with
      | some (.omap _) => true
      | _ => isComplexNestedBlock key bs

/-- The block loop of isListBasedBlock: some block's value at the key parses
as a sequence. -/
def isListBasedBlockAux (key : String) : List String → Bool
  | [] => false
  | b :: bs =>
    match parseYamlMap b with
    | none => isListBasedBlockAux key bs
    | some bd =>
      match lookupEntry bd key with
      | some (.seq _) => true
      | _ => isListBasedBlockAux key bs

/-- isListBasedBlock (part_002:314-333): tolerations is always list-based,
otherwise the key's value in some block parses as a sequence. -/
def isListBasedBlock (key : String) (blocks : List String) : Bool :=
  key == "tolerations" || isListBasedBlockAux key blocks

/-- isSingleLineScalar (part_002:372-390): every block is a single line that
starts with `key ++ ":"`, and there is at least one block. -/
def isSingleLineScalarAll (key : String) : List String → Bool
  | [] => true
  | b :: bs =>
    (match splitLines (trimSpace b) with
     | [only] => strStartsWith (trimSpace only) (key ++ ":")
     | _ => false) && isSingleLineScalarAll key bs

/-- isSingleLineScalar (part_002:372-390). -/
def isSingleLineScalar (blocks : List String) (key : String) : Bool :=
  !(blocks.isEmpty) && isSingleLineScalarAll key blocks

/-- injectBlockLines (part_002:336-369): re-indent the body of each block to the
given indent, keeping relative indentation measured from the first content
line; a single-line block is emitted whole at the indent. Go computes the
relative indent as a machine int (it would panic on a negative repeat count);
the Int arithmetic below matches it wherever Go does not panic. -/
def injectBlockLines : List String → Nat → String → List String
  | [], _, _ => []
  | block :: bs, indent, key =>
    (match splitLines (trimSpace block) with
     | [only] => [repeatSpaces indent ++ trimSpace only]
     | _ :: (fc :: rest2) =>
       let base : Int := getIndentation fc
       (fc :: rest2).map (fun bl =>
         repeatSpaces ((indent + ((getIndentation bl : Int) - base)).toNat) ++ trimSpace bl)
     | [] => [])
    ++ injectBlockLines bs indent key

/-- tolerationsMatch (part_002:172-188): compare the five identity fields via
their `%v` renderings; presence must agree and rendered values must agree. -/
def tolerationsMatch (a b : List (String × YamlVal)) : Bool :=
  ["key", "operator", "effect", "value", "tolerationSeconds"].all fun field =>
    match lookupEntry a field, lookupEntry b field with
    | some av, some bv => govFmt av == govFmt bv
    | none, none => true
    | _, _ => false

/-- The collection loop of mergeTolerations (part_002:59-78) in cursor/builder
form over the lines after the key line: returns the lines copied verbatim to
the output, the subset collected as existing content, and the number of lines
consumed. -/
def mergeTolCollect : List String → Nat → (List String × List String × Nat)
  | [], _ => ([], [], 0)
  | l :: rest, actualIndent =>
    let nt := trimSpace l
    if nt == "" || strStartsWith nt "#" then
      let r := mergeTolCollect rest actualIndent
      (l :: r.1, r.2.1, r.2.2 + 1)
    else if getIndentation l ≤ actualIndent then ([], [], 0)
    else
      let r := mergeTolCollect rest actualIndent
      (l :: r.1, l :: r.2.1, r.2.2 + 1)

/-- Candidate collection of mergeTolerations (part_002:105-149): parse each
block, take its tolerations sequence, keep the mapping items that match no
existing item. Unparseable blocks are skipped. -/
def collectNewTols (existingParsed : List (List (String × YamlVal))) :
    List String → List (List (String × YamlVal))
  | [] => []
  | b :: bs =>
    (match parseYamlMap b with
     | none => []
     | some bd =>
       match lookupEntry bd "tolerations" with
       | some (.seq xs) =>
         xs.filterMap fun v =>
           match v with
           | .omap m =>
             if existingParsed.any (fun ex => tolerationsMatch ex m) then none else some m
           | _ => none
       | _ => []) ++ collectNewTols existingParsed bs

/-- mergeTolerations (part_002:52-169) in cursor/builder form: takes the lines
after the key line, the key's indent, the candidate blocks and the raw key
line; returns the emitted output segment (which begins with the key line), the
number of following lines consumed, and the (modified, actuallyInjected)
flags. -/
def mergeTolerations (tail : List String) (actualIndent : Nat) (blocks : List String)
    (line : String) : List String × Nat × Bool × Bool :=
  let c := mergeTolCollect tail actualIndent
  let existingContent := c.2.1
  let existingYaml := "tolerations:\n" ++ joinLines existingContent
  let existingParsed :=
    match parseYamlMap existingYaml with
    | some es =>
      match lookupEntry es "tolerations" with
      | some (.seq xs) =>
        xs.filterMap fun v => match v with | .omap m => some m | _ => none
      | _ => []
    | none => []
  let newToAdd := collectNewTols existingParsed blocks
  -- encoder fuel: every node of newToAdd stems from a line of a block that
  -- parsed successfully, so the line count of those blocks bounds the size
  let fuelM := 2 * totalLinesOf (blocks.filter (fun b => (parseYamlMap b).isSome)) + 8
  let injected :=
    if newToAdd.isEmpty then []
    else
      injectBlockLines
        [marshalTop fuelM [("tolerations", .seq (newToAdd.map .omap))]]
        (actualIndent + 2) "tolerations"
  (line :: (c.1 ++ injected), c.2.2, !newToAdd.isEmpty, true)

/-- The collection loop of handleComplexNestedBlock (part_002:196-218) in
cursor/builder form: returns the copied segment (empty in replace mode),
whether non-blank content was seen, and the consumed line count. -/
def complexCollect : List String → Nat → Bool → (List String × Bool × Nat)
  | [], _, _ => ([], false, 0)
  | l :: rest, actualIndent, replaceContent =>
    let nt := trimSpace l
    if nt == "" || strStartsWith nt "#" then
      let r := complexCollect rest actualIndent replaceContent
      ((if replaceContent then r.1 else l :: r.1), r.2.1, r.2.2 + 1)
    else if getIndentation l ≤ actualIndent then ([], false, 0)
    else
      let r := complexCollect rest actualIndent replaceContent
      ((if replaceContent then r.1 else l :: r.1), true, r.2.2 + 1)

/-- handleComplexNestedBlock (part_002:192-239) in cursor/builder form over the
lines after the key line; the returned segment replaces those lines (and, in
replace mode, also the original key line rewritten as `indent ++ key ++ ":"`). -/
def handleComplexNestedBlock (tail : List String) (actualIndent : Nat)
    (blocks : List String) (yl : YAMLLine) (replaceContent : Bool) :
    List String × Nat × Bool × Bool :=
  let c := complexCollect tail actualIndent replaceContent
  if replaceContent then
    (c.1 ++ ((repeatSpaces actualIndent ++ yl.key ++ ":") ::
       injectBlockLines blocks (actualIndent + 2) yl.key), c.2.2, true, true)
  else if !c.2.1 then
    (c.1 ++ injectBlockLines blocks (actualIndent + 2) yl.key, c.2.2, true, true)
  else
    (c.1, c.2.2, false, false)

/-! ### Values patch engine: injectBlockIntoValuesPath
(inline_injector_test.go:1014-1249 variant) -/

/-- The existing-content lookahead of the empty-value branch
(inline_injector_test.go:1075-1117), over the lines after the key line; the
key's raw indent is used. -/
def hasExistingContentCheck : List String → Nat → Bool
  | [], _ => false
  | l :: rest, ylIndent =>
    let nt := trimSpace l
    if nt == "" || strStartsWith nt "#" then hasExistingContentCheck rest ylIndent
    else if getIndentation l == ylIndent && strStartsWith nt "- " then true
    else if getIndentation l ≤ ylIndent then false
    else true

/-- One line's effect on the path stack in the scan of
inline_injector_test.go:1028-1057: blank/comment lines and the wrapper marker
line leave the stack alone; otherwise pop to the wrapper-adjusted indent and
push the key when the line has a colon. -/
def lineStackStep (indentOffset : Nat) (st : PathStack) (l : String) : PathStack :=
  let yl := ParseLine l
  if yl.isEmpty || yl.isComment then st
  else if decide (0 < indentOffset) && yl.indent == 0 && yl.hasColon &&
      KnownWrapperKeys.contains yl.key then st
  else
    let ind := if decide (0 < indentOffset) && decide (indentOffset ≤ yl.indent)
      then yl.indent - indentOffset else yl.indent
    let st2 := st.popToIndent ind
    if yl.hasColon then st2.push ind yl.key else st2

/-- Whether the scan matches the target path at this line
(inline_injector_test.go:1055-1063). -/
def lineMatches (indentOffset : Nat) (ref : ValueReference) (st : PathStack)
    (l : String) : Bool :=
  let yl := ParseLine l
  if yl.isEmpty || yl.isComment then false
  else if decide (0 < indentOffset) && yl.indent == 0 && yl.hasColon &&
      KnownWrapperKeys.contains yl.key then false
  else
    let ind := if decide (0 < indentOffset) && decide (indentOffset ≤ yl.indent)
      then yl.indent - indentOffset else yl.indent
    if yl.hasColon then
      pathsMatch ((st.popToIndent ind).push ind yl.key).currentPath ref.path
    else false

/-- The empty-value injection step (inline_injector_test.go:1152-1164):
rewritten key line, then the block bodies one level (2) deeper — or at the
key's own indent for the tolerations special case (lines 1156-1161). -/
def emptyInjectSeg (yl : YAMLLine) (blocks : List String) :
    List String × Nat × Bool × Bool :=
  ((repeatSpaces yl.indent ++ yl.key ++ ":") ::
     injectBlockLines blocks ((if yl.key == "tolerations" then 0 else 2) + yl.indent) yl.key,
   0, true, true)

/-- The matched-path branch of injectBlockIntoValuesPath
(inline_injector_test.go:1063-1210) in cursor/builder form: given the parsed
key line, the raw line and the following lines, produce the emitted segment,
the number of following lines consumed and the (modified, actuallyInjected)
flags. -/
def matchedSeg (yl : YAMLLine) (l : String) (rest : List String)
    (blocks : List String) : List String × Nat × Bool × Bool :=
  if yl.value == "" || yl.value == "[]" || yl.value == "\x7b\x7d" then
    -- lines 1068-1169: empty inline value
    let isComplexNested := isComplexNestedBlock yl.key blocks
    if podConfigKeys.contains yl.key || isComplexNested then
      if hasExistingContentCheck rest yl.indent then
        if yl.key == "tolerations" then
          mergeTolerations rest yl.indent blocks l
        else if yl.key == "affinity" || isComplexNestedBlock yl.key blocks then
          handleComplexNestedBlock rest yl.indent blocks yl true
        else emptyInjectSeg yl blocks
      else emptyInjectSeg yl blocks
    else emptyInjectSeg yl blocks
  else
    -- lines 1170-1209: the key already carries inline content
    if !(isComplexNestedBlock yl.key blocks) && !(isListBasedBlock yl.key blocks) then
      match injectBlockLines blocks yl.indent yl.key with
      | [] => ([l], 0, false, false)
      | i0 :: irest => (i0 :: irest, 0, true, true)
    else
      if yl.key == "tolerations" then
        let r := mergeTolerations rest yl.indent blocks l
        (l :: r.1, r.2.1, r.2.2.1, r.2.2.2)
      else if yl.key == "affinity" || isComplexNestedBlock yl.key blocks then
        let r := handleComplexNestedBlock rest yl.indent blocks yl false
        (l :: r.1, r.2.1, r.2.2.1, r.2.2.2)
      else ([l], 0, false, false)

/-- The scanning loop of injectBlockIntoValuesPath
(inline_injector_test.go:1023-1215) in cursor/builder form; the fuel is one
more than the line count, and every iteration consumes at least the head
line. -/
def injectLoop (ref : ValueReference) (blocks : List String) (indentOffset : Nat) :
    Nat → PathStack → List String → List String × Bool × Bool
  | 0, _, _ => ([], false, false)
  | _ + 1, _, [] => ([], false, false)
  | fuel + 1, st, l :: rest =>
    let contSt := lineStackStep indentOffset st l
    if lineMatches indentOffset ref st l then
      let yl := ParseLine l
      let seg := matchedSeg yl l rest blocks
      let r := injectLoop ref blocks indentOffset fuel contSt (rest.drop seg.2.1)
      (seg.1 ++ r.1, seg.2.2.1 || r.2.1, seg.2.2.2 || r.2.2)
    else
      let r := injectLoop ref blocks indentOffset fuel contSt rest
      (l :: r.1, r.2.1, r.2.2)

/-- The root-key fallback of injectBlockIntoValuesPath
(inline_injector_test.go:1218-1246): blank separator if the result does not end
in a blank line, then the new section at the wrapper offset. -/
def appendRootSection (res : List String) (key : String) (blocks : List String)
    (indentOffset : Nat) : List String :=
  let res2 :=
    if decide (0 < res.length) && !(trimSpace (res.getLastD "") == "") then res ++ [""]
    else res
  let sect :=
    if isSingleLineScalar blocks key then injectBlockLines blocks indentOffset key
    else (repeatSpaces indentOffset ++ key ++ ":") ::
      injectBlockLines blocks (2 + indentOffset) key
  res2 ++ sect

/-- injectBlockIntoValuesPath (inline_injector_test.go:1014-1249), producing
the final output lines together with the (modified, actuallyInjected) flags. -/
def injectResultLines (content : String) (ref : ValueReference)
    (blocks : List String) (indentOffset : Nat) : List String × Bool × Bool :=
  let lines := splitLines content
  let r := injectLoop ref blocks indentOffset (lines.length + 1) [] lines
  if !r.2.2 && ref.path.length == 1 then
    (appendRootSection r.1 (ref.path.headD "") blocks indentOffset, true, true)
  else r

/-- injectBlockIntoValuesPath (inline_injector_test.go:1014-1249): returns
(newContent, fileModified, actuallyInjected). -/
def injectBlockIntoValuesPath (content : String) (ref : ValueReference)
    (blocks : List String) (indentOffset : Nat) : String × Bool × Bool :=
  let r := injectResultLines content ref blocks indentOffset
  (joinLines r.1, r.2.1, r.2.2)

/-- Pure rescan of a document counting the lines whose wrapper-adjusted path
equals the target path; used to state "the key appears exactly once". -/
def scanMatchCount (ref : ValueReference) (indentOffset : Nat) (st : PathStack) :
    List String → Nat
  | [] => 0
  | l :: rest =>
    (if lineMatches indentOffset ref st l then 1 else 0) +
      scanMatchCount ref indentOffset (lineStackStep indentOffset st l) rest

/-! ### Wrapper pattern detection (values_parser.go:78-107) -/

/-- detectWrapperPattern (values_parser.go:78-107): skip blanks and comments;
at the first line containing a colon, return 2 when it sits at indent 0 with a
known wrapper key, else 0; a colon-free content line is skipped by the loop. -/
def detectWrapperPattern (content : String) : Nat :=
  go (splitLines content)
where
  go : List String → Nat
  | [] => 0
  | l :: rest =>
    let trimmed := trimSpace l
    if trimmed == "" || strStartsWith trimmed "#" then go rest
    else if containsColon trimmed then
      (if getIndentation l == 0 &&
          KnownWrapperKeys.contains
            (trimSpace ((splitFirstColon trimmed).map Prod.fst |>.getD trimmed))
        then 2 else 0)
    else go rest

/-- Characterisation of detectWrapperPattern following the amended reading of
the spec: the first non-blank, non-comment line that contains a colon is a
zero-indent known wrapper key. -/
def firstKeyIsWrapper (content : String) : Bool :=
  go (splitLines content)
where
  go : List String → Bool
  | [] => false
  | l :: rest =>
    let trimmed := trimSpace l
    if trimmed == "" || strStartsWith trimmed "#" then go rest
    else if containsColon trimmed then
      getIndentation l == 0 &&
        KnownWrapperKeys.contains
          (trimSpace ((splitFirstColon trimmed).map Prod.fst |>.getD trimmed))
    else go rest

/-! ### Root-level deep merge: injectNewValuesIntoRoot (custom_values_mod.go) -/

/-- Trailing trim of a key range: walk the end index down over blank or comment
lines while it stays above the start line (custom_values_mod.go:271-273). -/
def trimEndIdx (lines : List String) (startL : Nat) : Nat → Nat
  | 0 => 0
  | e + 1 =>
    if isBlankOrComment (lines.getD (e + 1) "") && decide (startL < e + 1) then
      trimEndIdx lines startL e
    else e + 1

/-- Trailing trim over blank lines only (custom_values_mod.go:312-315). -/
def trimEndBlankIdx (lines : List String) (startL : Nat) : Nat → Nat
  | 0 => 0
  | e + 1 =>
    if trimSpace (lines.getD (e + 1) "") == "" && decide (startL < e + 1) then
      trimEndBlankIdx lines startL e
    else e + 1

/-- Loop state of findAndRemoveRootKey (custom_values_mod.go:236-240). -/
structure FarState where
  st : PathStack
  found : Bool
  startL : Nat
  endL : Nat
  virtInd : Nat
  preview : String

/-- The scan loop of findAndRemoveRootKey (custom_values_mod.go:242-305); `i` is
the index of the head of the remaining lines inside `allLines`. -/
def farLoop (targetKey : String) (off : Nat) (allLines : List String) :
    Nat → List String → FarState → FarState
  | _, [], s => s
  | i, l :: rest, s =>
    let yl := ParseLine l
    if yl.isEmpty || yl.isComment then
      farLoop targetKey off allLines (i + 1) rest
        (if s.found then { s with endL := i } else s)
    else if decide (0 < off) && yl.indent == 0 && yl.hasColon &&
        KnownWrapperKeys.contains yl.key then
      farLoop targetKey off allLines (i + 1) rest s
    else
      let ind := if decide (0 < off) && decide (off ≤ yl.indent)
        then yl.indent - off else yl.indent
      if s.found && decide (ind ≤ s.virtInd) then
        { s with endL := trimEndIdx allLines s.startL (i - 1) }
      else
        let st2 := s.st.popToIndent ind
        if yl.hasColon then
          let st3 := st2.push ind yl.key
          let cur := st3.currentPath
          if cur.length == 1 && (cur.headD "") == targetKey then
            farLoop targetKey off allLines (i + 1) rest
              { st := st3, found := true, startL := i, endL := i,
                virtInd := ind, preview := yl.value }
          else
            farLoop targetKey off allLines (i + 1) rest
              { s with st := st3, endL := if s.found then i else s.endL }
        else
          farLoop targetKey off allLines (i + 1) rest
            { s with st := st2, endL := if s.found then i else s.endL }

/-- findAndRemoveRootKey (custom_values_mod.go:235-319): returns
(keyExists, valuePreview, startLine, endLine). -/
def findAndRemoveRootKey (lines : List String) (targetKey : String) (off : Nat) :
    Bool × String × Nat × Nat :=
  let s := farLoop targetKey off lines 0 lines
    ⟨([] : List PathLevel), false, 0, 0, 0, ""⟩
  let endL :=
    if s.found && decide (s.endL < s.startL) then
      trimEndBlankIdx lines s.startL (lines.length - 1)
    else s.endL
  (s.found, s.preview, s.startL, endL)

/-- toInterfaceMap (inline_injector_test.go:1391-1405): both Go generic map
shapes collapse to the one mapping constructor of the model. -/
def toInterfaceMap : YamlVal → Option (List (String × YamlVal))
  | .omap es => some es
  | _ => none

/-- deepMergeYAML (inline_injector_test.go:1358-1388): candidate wins on
conflicts, mapping values merge recursively, everything else is replaced. Fuel
bounds the total work and is derived from source line counts by callers. -/
def deepMergeGo : Nat → List (String × YamlVal) → List (String × YamlVal) →
    List (String × YamlVal)
  | 0, res, _ => res
  | _ + 1, res, [] => res
  | fuel + 1, res, (k, sv) :: bs =>
    let res2 :=
      match lookupEntry res k, sv with
      | some (.omap dm), .omap sm => updateEntry res k (.omap (deepMergeGo fuel dm sm))
      | some _, _ => updateEntry res k sv
      | none, _ => res ++ [(k, sv)]
    deepMergeGo fuel res2 bs

/-- deepMergeYAML (inline_injector_test.go:1358-1388). -/
def deepMergeYAML (fuel : Nat) (existingMap newMap : List (String × YamlVal)) :
    List (String × YamlVal) :=
  deepMergeGo fuel existingMap newMap

/-- findWrapperEndPosition (inline_injector_test.go:1299-1337) scan loop:
returns (last content line if any, wrapper found, wrapper line). -/
def fwepLoop (off : Nat) : Nat → List String → Option Nat → Bool → Nat →
    Option Nat × Bool × Nat
  | _, [], last, found, wl => (last, found, wl)
  | i, l :: rest, last, found, wl =>
    let yl := ParseLine l
    if yl.isEmpty || yl.isComment then fwepLoop off (i + 1) rest last found wl
    else if yl.indent == 0 && yl.hasColon && KnownWrapperKeys.contains yl.key then
      fwepLoop off (i + 1) rest last true i
    else if found && yl.indent == 0 then (last, found, wl)
    else if found then
      if decide (off ≤ yl.indent) then fwepLoop off (i + 1) rest (some i) found wl
      else if yl.indent == 0 then (last, found, wl)
      else fwepLoop off (i + 1) rest last found wl
    else fwepLoop off (i + 1) rest last found wl

/-- findWrapperEndPosition (inline_injector_test.go:1299-1337). -/
def findWrapperEndPosition (lines : List String) (off : Nat) : Nat :=
  match fwepLoop off 0 lines none false 0 with
  | (some n, _, _) => n + 1
  | (none, true, wl) => wl
  | (none, false, _) => lines.length

/-- Block-line preparation of injectNewValuesIntoRoot
(custom_values_mod.go:191-212): re-indent the non-blank lines of the final
block by the wrapper offset, keeping indentation relative to the first line. -/
def invBlockLinesPrep (finalBlock : String) (off : Nat) : List String :=
  let blockLines := splitLines (trimSpace finalBlock)
  let baseIndent : Int := getIndentation (blockLines.headD "")
  blockLines.filterMap fun bl =>
    let t := trimSpace bl
    if t == "" then none
    else some (repeatSpaces ((off + ((getIndentation bl : Int) - baseIndent)).toNat) ++ t)

/-- The per-key body of injectNewValuesIntoRoot (custom_values_mod.go:79-225);
Logger.Fatalf on an unparseable existing range becomes the error case. -/
def invGoEntries (off : Nat) (content : String) :
    List String → List (String × YamlVal) → String → Bool →
    Except String (List String × Bool)
  | lines, [], _, m => .ok (lines, m)
  | lines, (key, newValue) :: es, block, _m =>
    let far := findAndRemoveRootKey lines key off
    let startL := far.2.2.1
    let endL := far.2.2.2
    if far.1 then
      let existingContent := joinLines ((lines.drop startL).take (endL + 1 - startL))
      match parseYamlMap existingContent with
      | none =>
        .error ("injectNewValuesIntoRoot: failed to unmarshal existing content for key " ++ key)
      | some existingData =>
        let finalBlock :=
          match lookupEntry existingData key with
          | some existingVal =>
            match toInterfaceMap existingVal, toInterfaceMap newValue with
            | some existingMap, some newMap =>
              marshalTop (2 * (linesCount content + linesCount block) + 8)
                [(key, .omap (deepMergeYAML
                  (2 * (linesCount existingContent + linesCount block) + 8)
                  existingMap newMap))]
            | _, _ => block
          | none => block
        let lines2 := lines.take startL ++ lines.drop (endL + 1)
        let newLines := invBlockLinesPrep finalBlock off
        let lines3 := lines2.take startL ++ newLines ++ lines2.drop startL
        invGoEntries off content lines3 es block true
    else
      let insertPos := if decide (0 < off) then findWrapperEndPosition lines off
        else lines.length
      let needBlank := decide (0 < insertPos) && decide (insertPos ≤ lines.length) &&
        !(trimSpace (lines.getD (insertPos - 1) "") == "")
      let lines2 := if needBlank then lines.take insertPos ++ [""] ++ lines.drop insertPos
        else lines
      let insertPos2 := if needBlank then insertPos + 1 else insertPos
      let newLines := invBlockLinesPrep block off
      let lines3 := lines2.take insertPos2 ++ newLines ++ lines2.drop insertPos2
      invGoEntries off content lines3 es block true

/-- The per-block loop of injectNewValuesIntoRoot (custom_values_mod.go:71-226):
an unparseable block is logged and skipped, processing continues. -/
def invGoBlocks (off : Nat) (content : String) :
    List String → List String → Bool → Except String (List String × Bool)
  | lines, [], m => .ok (lines, m)
  | lines, block :: rest, m =>
    match parseYamlMap block with
    | none => invGoBlocks off content lines rest m
    | some blockData =>
      match invGoEntries off content lines blockData block m with
      | .error e => .error e
      | .ok (lines2, m2) => invGoBlocks off content lines2 rest m2

/-- injectNewValuesIntoRoot (custom_values_mod.go:65-229). A Logger.Fatalf in
the Go code terminates the process; the embedding returns it as the error
branch. On success the result is (newContent, fileModified). -/
def injectNewValuesIntoRoot (content : String) (newValuesBlocks : List String)
    (indentOffset : Nat) : Except String (String × Bool) :=
  match invGoBlocks indentOffset content (splitLines content) newValuesBlocks false with
  | .error e => .error e
  | .ok (lines, m) => .ok (joinLines lines, m)

/-! ### In-place template injector: injectInlinePodSpec (custom_scheme_mods.go) -/

/-- InjectorBlocks (Go `map[string][]string` by category name). -/
def InjectorBlocks := String → List String

/-- isUnderTemplateSection backward walk (custom_scheme_mods.go:422-440): find
the nearest preceding non-blank, non-comment line at lower indentation and
test whether it is the template key. -/
def underTemplateAux (lines : List String) (lineIndent : Nat) : Nat → Bool
  | 0 => false
  | i + 1 =>
    let l := lines.getD i ""
    let t := trimSpace l
    if t == "" || strStartsWith t "#" then underTemplateAux lines lineIndent i
    else if decide (getIndentation l < lineIndent) then strStartsWith t "template:"
    else underTemplateAux lines lineIndent i

/-- isUnderTemplateSection (custom_scheme_mods.go:418-443). -/
def isUnderTemplateSection (lines : List String) (index : Nat) : Bool :=
  underTemplateAux lines (getIndentation (lines.getD index "")) index

/-- The pod-spec classification of injectInlinePodSpec
(custom_scheme_mods.go:301-306): for kind Pod the spec line not nested under a
template section, for every other kind the spec line that is. -/
def isPodSpecLine (resourceKind : String) (lines : List String) (i : Nat) : Bool :=
  let trimmed := trimSpace (lines.getD i "")
  if resourceKind == "Pod" then
    strStartsWith trimmed "spec:" && !(isUnderTemplateSection lines i)
  else
    strStartsWith trimmed "spec:" && isUnderTemplateSection lines i

/-- podSpecHasKey (custom_scheme_mods.go:587-622): key presence directly under
the spec, treating a key inside a with/end template conditional as absent. -/
def podSpecHasKeyAux (lines : List String) (specIndent : Nat) (key : String) :
    Nat → Nat → Bool → Bool
  | 0, _, _ => false
  | fuel + 1, i, inCond =>
    if decide (lines.length ≤ i) then false
    else
      let l := lines.getD i ""
      let t := trimSpace l
      if t == "" || strStartsWith t "#" then
        podSpecHasKeyAux lines specIndent key fuel (i + 1) inCond
      else if strStartsWith t "\x7b\x7b-" && containsSubstr t "with" then
        podSpecHasKeyAux lines specIndent key fuel (i + 1) true
      else if strStartsWith t "\x7b\x7b-" && containsSubstr t "end" then
        podSpecHasKeyAux lines specIndent key fuel (i + 1) false
      else if decide (getIndentation l ≤ specIndent) then false
      else if getIndentation l == specIndent + 2 && strStartsWith t (key ++ ":") then
        !inCond
      else podSpecHasKeyAux lines specIndent key fuel (i + 1) inCond

/-- podSpecHasKey (custom_scheme_mods.go:587-622). -/
def podSpecHasKey (lines : List String) (specIndex specIndent : Nat) (key : String) : Bool :=
  podSpecHasKeyAux lines specIndent key (lines.length + 1) (specIndex + 1) false

/-- String field extraction from a toleration item (Go `.(string)` assertion:
non-strings leave the field empty). -/
def getStrField (t : List (String × YamlVal)) (f : String) : String :=
  match lookupEntry t f with
  | some (.str s) => s
  | _ => ""

/-- The final per-item check of podSpecHasTolerationBlock
(custom_scheme_mods.go:560-577). -/
def tolFieldsDone (tk top te : String) (fk fo fe : Bool) : Bool :=
  (tk == "" || fk) && (top == "" || fo) && (te == "" || fe)

/-- Inner item scan of podSpecHasTolerationBlock (custom_scheme_mods.go:533-577). -/
def psHtbInner (lines : List String) (specIndent : Nat) (tk top te : String) :
    Nat → Nat → Nat → Bool → Bool → Bool → Bool
  | 0, _, _, fk, fo, fe => tolFieldsDone tk top te fk fo fe
  | fuel + 1, j, i0, fk, fo, fe =>
    if decide (lines.length ≤ j) then tolFieldsDone tk top te fk fo fe
    else
      let nl := lines.getD j ""
      let nt := trimSpace nl
      if nt == "" || strStartsWith nt "#" then
        psHtbInner lines specIndent tk top te fuel (j + 1) i0 fk fo fe
      else if decide (getIndentation nl < specIndent + 2) then
        tolFieldsDone tk top te fk fo fe
      else
        let fk2 := fk || (!(tk == "") && nt == ("key: " ++ tk))
        let fo2 := fo || (!(top == "") && nt == ("operator: " ++ top))
        let fe2 := fe || (!(te == "") && nt == ("effect: " ++ te))
        if strStartsWith nt "- " && decide (i0 + 1 < j) then
          if tolFieldsDone tk top te fk2 fo2 fe2 then true
          else psHtbInner lines specIndent tk top te fuel (j + 1) i0 false false false
        else psHtbInner lines specIndent tk top te fuel (j + 1) i0 fk2 fo2 fe2

/-- Outer scan of podSpecHasTolerationBlock (custom_scheme_mods.go:512-581). -/
def psHtbOuter (lines : List String) (specIndent : Nat) (tk top te : String) :
    Nat → Nat → Bool
  | 0, _ => false
  | fuel + 1, i =>
    if decide (lines.length ≤ i) then false
    else
      let l := lines.getD i ""
      let t := trimSpace l
      if t == "" || strStartsWith t "#" then psHtbOuter lines specIndent tk top te fuel (i + 1)
      else if decide (getIndentation l ≤ specIndent) then false
      else if getIndentation l == specIndent + 2 && strStartsWith t "tolerations:" then
        psHtbInner lines specIndent tk top te fuel (i + 1) i false false false
      else psHtbOuter lines specIndent tk top te fuel (i + 1)

/-- podSpecHasTolerationBlock (custom_scheme_mods.go:492-584). -/
def podSpecHasTolerationBlock (lines : List String) (specIndex specIndent : Nat)
    (blockData : List (String × YamlVal)) : Bool :=
  let fields :=
    match lookupEntry blockData "tolerations" with
    | some (.seq (x :: _)) =>
      match x with
      | .omap t => (getStrField t "key", getStrField t "operator", getStrField t "effect")
      | _ => ("", "", "")
    | _ => ("", "", "")
  psHtbOuter lines specIndent fields.1 fields.2.1 fields.2.2
    (lines.length + 1) (specIndex + 1)

/-- podSpecHasBlock (custom_scheme_mods.go:459-489); the single top-level key
of the block picks the check. -/
def podSpecHasBlock (lines : List String) (specIndex specIndent : Nat)
    (block : String) : Bool :=
  match parseYamlMap block with
  | none => false
  | some bd =>
    match bd with
    | [] => false
    | (topKey, _) :: _ =>
      if topKey == "" then false
      else if topKey == "tolerations" then
        podSpecHasTolerationBlock lines specIndex specIndent bd
      else if topKey == "affinity" then
        podSpecHasKey lines specIndex specIndent "affinity"
      else podSpecHasKey lines specIndex specIndent topKey

/-- findMissingPodBlocks (custom_scheme_mods.go:446-456). -/
def findMissingPodBlocks (lines : List String) (specIndex specIndent : Nat)
    (blockStrings : List String) : List String :=
  blockStrings.filter (fun b => !(podSpecHasBlock lines specIndex specIndent b))

/-- getPodBlocksByKey (custom_scheme_mods.go:653-667). -/
def getPodBlocksByKey (blocks : List String) (key : String) : List String :=
  blocks.filter fun b =>
    match parseYamlMap b with
    | none => false
    | some bd => (lookupEntry bd key).isSome

/-- removePodBlocksByKey (custom_scheme_mods.go:670-682): unparseable blocks
are dropped as well. -/
def removePodBlocksByKey (blocks : List String) (key : String) : List String :=
  blocks.filter fun b =>
    match parseYamlMap b with
    | none => false
    | some bd => (lookupEntry bd key).isNone

/-- findExistingPodKey scan (custom_scheme_mods.go:685-704); `none` models -1. -/
def findExistingPodKeyAux (lines : List String) (specIndent : Nat) (key : String) :
    Nat → Nat → Option Nat
  | 0, _ => none
  | fuel + 1, i =>
    if decide (lines.length ≤ i) then none
    else
      let l := lines.getD i ""
      let t := trimSpace l
      if t == "" || strStartsWith t "#" then findExistingPodKeyAux lines specIndent key fuel (i + 1)
      else if decide (getIndentation l ≤ specIndent) then none
      else if getIndentation l == specIndent + 2 && strStartsWith t (key ++ ":") then some i
      else findExistingPodKeyAux lines specIndent key fuel (i + 1)

/-- findExistingPodKey (custom_scheme_mods.go:685-704). -/
def findExistingPodKey (lines : List String) (specIndex specIndent : Nat)
    (key : String) : Option Nat :=
  findExistingPodKeyAux lines specIndent key (lines.length + 1) (specIndex + 1)

/-- findTolerationsEndPoint scan (custom_scheme_mods.go:707-728). -/
def findTolEndAux (lines : List String) (specIndent : Nat) : Nat → Nat → Nat
  | 0, _ => lines.length
  | fuel + 1, i =>
    if decide (lines.length ≤ i) then lines.length
    else
      let l := lines.getD i ""
      let t := trimSpace l
      if t == "" || strStartsWith t "#" then findTolEndAux lines specIndent fuel (i + 1)
      else if strStartsWith t "\x7b\x7b-" && containsSubstr t "end" then i
      else if decide (getIndentation l ≤ specIndent + 2) then i
      else findTolEndAux lines specIndent fuel (i + 1)

/-- findTolerationsEndPoint (custom_scheme_mods.go:707-728). -/
def findTolerationsEndPoint (lines : List String) (tolerationsLineIdx specIndent : Nat) : Nat :=
  findTolEndAux lines specIndent (lines.length + 1) (tolerationsLineIdx + 1)

/-- findPodBlockInjectionPoint scan (custom_scheme_mods.go:625-650). -/
def findPodInjAux (lines : List String) (specIndent : Nat) : Nat → Nat → Nat
  | 0, _ => lines.length
  | fuel + 1, i =>
    if decide (lines.length ≤ i) then lines.length
    else
      let l := lines.getD i ""
      let t := trimSpace l
      if t == "" || strStartsWith t "#" then findPodInjAux lines specIndent fuel (i + 1)
      else if decide (getIndentation l ≤ specIndent) then i
      else if getIndentation l == specIndent + 2 &&
          (strStartsWith t "containers:" || strStartsWith t "initContainers:" ||
            strStartsWith t "volumes:") then i
      else findPodInjAux lines specIndent fuel (i + 1)

/-- findPodBlockInjectionPoint (custom_scheme_mods.go:625-650). -/
def findPodBlockInjectionPoint (lines : List String) (specIndex specIndent : Nat) : Nat :=
  findPodInjAux lines specIndent (lines.length + 1) (specIndex + 1)

/-- Grouping of injectMissingPodBlocks (custom_scheme_mods.go:736-747), keyed by
each block's first top-level key. Go iterates its map in arbitrary order; the
model keeps first-encounter order, which coincides for the single-key
collections the program uses. -/
def groupAdd (g : List (String × List String)) (k : String) (b : String) :
    List (String × List String) :=
  match g with
  | [] => [(k, [b])]
  | (k2, bs) :: rest => if k2 == k then (k2, bs ++ [b]) :: rest else (k2, bs) :: groupAdd rest k b

/-- Build the grouped map of injectMissingPodBlocks, left to right as Go does. -/
def groupPodBlocksGo (acc : List (String × List String)) :
    List String → List (String × List String)
  | [] => acc
  | b :: bs =>
    match parseYamlMap b with
    | none => groupPodBlocksGo acc bs
    | some [] => groupPodBlocksGo acc bs
    | some ((k, _) :: _) => groupPodBlocksGo (groupAdd acc k b) bs

/-- Grouped blocks of injectMissingPodBlocks. -/
def groupPodBlocksByKey (blocks : List String) : List (String × List String) :=
  groupPodBlocksGo [] blocks

/-- injectMissingPodBlocks (custom_scheme_mods.go:731-776): tolerations blocks
merged under one header first, every other group appended whole. -/
def injectMissingPodBlocks (missingBlocks : List String) (indent : Nat) : List String :=
  let grouped := groupPodBlocksByKey missingBlocks
  let spaces := repeatSpaces indent
  let tolPart :=
    match grouped.find? (fun e => e.1 == "tolerations") with
    | some (_, tbs) =>
      if tbs.isEmpty then []
      else (spaces ++ "tolerations:") ::
        tbs.flatMap (fun b => ((splitLines (trimSpace b)).drop 1).map (fun bl => spaces ++ bl))
    | none => []
  let others :=
    (grouped.filter (fun e => !(e.1 == "tolerations"))).flatMap fun e =>
      e.2.flatMap fun b => (splitLines (trimSpace b)).map (fun bl => spaces ++ bl)
  tolPart ++ others

/-- collectPodBlocks for the inline injector (custom_scheme_mods.go:316-322). -/
def collectPodBlocksInline (blocks : InjectorBlocks) (criticalDs controlPlane : Bool) :
    List String :=
  let pb := blocks "allPods"
  let pb := if criticalDs then pb ++ blocks "criticalDsPods" else pb
  if controlPlane then pb ++ blocks "controlPlanePods" else pb

/-- Copy of a half-open index range of lines. -/
def sliceLines (lines : List String) (a b : Nat) : List String :=
  (lines.drop a).take (b - a)

/-- The all-blocks-present copy loop (custom_scheme_mods.go:391-406): copy
child lines until the next non-blank, non-comment line at the spec's indent or
lower; returns the copied segment and the next index. -/
def copyChildSeg (lines : List String) (indent : Nat) : Nat → Nat → List String × Nat
  | 0, j => ([], j)
  | fuel + 1, j =>
    if decide (lines.length ≤ j) then ([], j)
    else
      let nl := lines.getD j ""
      let nt := trimSpace nl
      if decide (getIndentation nl ≤ indent) && !(nt == "") && !(strStartsWith nt "#") then
        ([], j)
      else
        let r := copyChildSeg lines indent fuel (j + 1)
        (nl :: r.1, r.2)

/-- The pod-spec branch body of injectInlinePodSpec
(custom_scheme_mods.go:308-406) in cursor/builder form: returns the segment
emitted after the spec line and the next read index. -/
def podSpecSeg (lines : List String) (i indent : Nat) (podBlocks : List String) :
    List String × Nat :=
  let missingBlocks := findMissingPodBlocks lines i indent podBlocks
  if !(missingBlocks.isEmpty) then
    let tolerationBlocks := getPodBlocksByKey missingBlocks "tolerations"
    let existingTolIdx := findExistingPodKey lines i indent "tolerations"
    if !(tolerationBlocks.isEmpty) && existingTolIdx.isSome then
      let tolIdx := existingTolIdx.getD 0
      let insertionPoint := findTolerationsEndPoint lines tolIdx indent
      let seg1 := sliceLines lines (i + 1) insertionPoint
      let listIndent := repeatSpaces (indent + 2)
      let items := tolerationBlocks.flatMap fun b =>
        ((splitLines (trimSpace b)).drop 1).map fun bl =>
          if strStartsWith (trimSpace bl) "- " then listIndent ++ trimSpace bl
          else listIndent ++ "  " ++ trimSpace bl
      let missing2 := removePodBlocksByKey missingBlocks "tolerations"
      if !(missing2.isEmpty) then
        let injectionPoint := findPodBlockInjectionPoint lines (insertionPoint - 1) indent
        (seg1 ++ items ++ sliceLines lines insertionPoint injectionPoint ++
          injectMissingPodBlocks missing2 (indent + 2), injectionPoint)
      else (seg1 ++ items, insertionPoint)
    else
      let injectionPoint := findPodBlockInjectionPoint lines i indent
      (sliceLines lines (i + 1) injectionPoint ++
        injectMissingPodBlocks missingBlocks (indent + 2), injectionPoint)
  else
    let r := copyChildSeg lines indent (lines.length + 1) (i + 1)
    (r.1, r.2)

/-- The scan loop of injectInlinePodSpec (custom_scheme_mods.go:294-412). -/
def inlinePodLoop (lines : List String) (resourceKind : String)
    (podBlocks : List String) : Nat → Nat → List String
  | 0, _ => []
  | fuel + 1, i =>
    if decide (lines.length ≤ i) then []
    else
      let line := lines.getD i ""
      if isPodSpecLine resourceKind lines i then
        let indent := getIndentation line
        let r := podSpecSeg lines i indent podBlocks
        (line :: r.1) ++ inlinePodLoop lines resourceKind podBlocks fuel r.2
      else line :: inlinePodLoop lines resourceKind podBlocks fuel (i + 1)

/-- injectInlinePodSpec (custom_scheme_mods.go:289-415); the Go error return is
always nil, so the embedding returns the new content. -/
def injectInlinePodSpec (content : String) (blocks : InjectorBlocks)
    (resourceKind : String) (criticalDs controlPlane : Bool) : String :=
  let lines := splitLines content
  let podBlocks := collectPodBlocksInline blocks criticalDs controlPlane
  joinLines (inlinePodLoop lines resourceKind podBlocks (lines.length + 1) 0)

/-! ### Existence prober worker (update-registry.go:154-234) -/

/-- Environment of one prober goroutine, abstracting the effects the worker
body branches on: slot acquisition before the deadline, reference parsing,
and the outcomes of the Head and Get store calls. -/
structure ProbeOutcome where
  slotAcquired : Bool
  parseOk : Bool
  headOk : Bool
  getOk : Bool
deriving Repr, DecidableEq

/-- The worker body of CheckImagesExist (update-registry.go:177-229) for one
reference: the reported existence result paired with the number of remote
store calls made (Head and Get each count one). -/
def checkImageWorker (img : String) (o : ProbeOutcome) : Bool × Nat :=
  if !o.slotAcquired then (false, 0)
  else if !o.parseOk then (false, 0)
  else if o.headOk then (true, 1)
  else if o.getOk then (true, 2)
  else if img == "auto" then (true, 2)
  else (false, 2)

/-! ### Backup of the values file (process_chart.go:419-443, part_004:390-414) -/

/-- Filesystem model: path to file contents. -/
def Fs := String → Option String

/-- Writing one file. -/
def fsWrite (fs : Fs) (p v : String) : Fs :=
  fun q => if q = p then some v else fs q

/-- backupValuesFile (process_chart.go:419-443): missing values.yaml is an
error; an existing backup returns success untouched; otherwise the backup is
written once. -/
def backupValuesFile (fs : Fs) (chartPath : String) : Fs × Except String Unit :=
  let valuesPath := chartPath ++ "/values.yaml"
  let backupPath := valuesPath ++ ".backup"
  match fs valuesPath with
  | none => (fs, .error ("values.yaml does not exist at " ++ valuesPath))
  | some input =>
    match fs backupPath with
    | some _ => (fs, .ok ())
    | none => (fsWrite fs backupPath input, .ok ())

/-! ### Auxiliary predicates used to state the frame and append claims -/

/-- A line carrying no embedded newline (all real document lines do). -/
def lineNoNl (l : String) : Bool := !(l.data.contains '\n')

/-- Wellformedness of an injected body line for the root-append analysis: no
newline, and either ignored by the scan (blank or comment) or strictly deeper
than the appended key's indent. -/
def bodyOkB (off : Nat) (l : String) : Bool :=
  lineNoNl l && (isBlankOrComment l || decide (off < getIndentation l))

/-- A plain key token: nonempty, and free of whitespace, colon and hash. -/
def cleanKeyB (k : String) : Bool :=
  !(k == "") && k.data.all (fun c => !(isSpaceCh c) && !(c == ':') && !(c == '#'))

/-- Frame simulation between the input lines and the output lines of the
values patch engine: lines are copied verbatim in order, except at a line
whose wrapper-adjusted path matches the target reference, where the engine may
consume that line together with `k` following lines and emit an arbitrary
replacement segment, and at the end of the input, where an arbitrary appended
tail is allowed (the root-key append). `FrameSim off ref st input output` says
`output` arises from `input` this way starting from path stack `st`. -/
inductive FrameSim (off : Nat) (ref : ValueReference) :
    PathStack → List String → List String → Prop
  | stop (st : PathStack) (extra : List String) : FrameSim off ref st [] extra
  | copy (st : PathStack) (l : String) (rest out : List String)
      (h : lineMatches off ref st l = false)
      (ih : FrameSim off ref (lineStackStep off st l) rest out) :
      FrameSim off ref st (l :: rest) (l :: out)
  | edit (st : PathStack) (l : String) (rest out gen : List String) (k : Nat)
      (h : lineMatches off ref st l = true)
      (ih : FrameSim off ref (lineStackStep off st l) (rest.drop k) out) :
      FrameSim off ref st (l :: rest) (gen ++ out)

/-! ## Theorems -/

/-- C1: the values patch engine is claimed idempotent (`patch(patch(D)) ==
patch(D)` byte-for-byte), but patching the empty `tolerations: []` once puts
the list items at the key's own indent (the tolerations special case), and a
second run fails to collect those same-indent items — mergeTolerations stops
at indent ≤ key indent — so it appends a duplicate copy indented two deeper.
This theorem evaluates the engine at that failing input: the second run both
reports a modification and produces different bytes. -/
theorem C1_patch_not_idempotent_eval :
    (injectBlockIntoValuesPath "tolerations: []"
        ⟨["tolerations"], "tolerations"⟩
        ["tolerations:\n- key: dedicated\n  operator: Exists"] 0
      = ("tolerations:\n- key: dedicated\n  operator: Exists", true, true)) ∧
    (injectBlockIntoValuesPath "tolerations:\n- key: dedicated\n  operator: Exists"
        ⟨["tolerations"], "tolerations"⟩
        ["tolerations:\n- key: dedicated\n  operator: Exists"] 0
      = ("tolerations:\n  - key: dedicated\n    operator: Exists\n- key: dedicated\n  operator: Exists",
         true, true)) ∧
    (("tolerations:\n  - key: dedicated\n    operator: Exists\n- key: dedicated\n  operator: Exists"
        == "tolerations:\n- key: dedicated\n  operator: Exists") = false) := by
  refine ⟨?_, ?_, ?_⟩ <;> decide

/-- C3: when a tolerations key already has list content, a candidate that is
structurally equal to an existing item must never be appended. The failing
input has the existing item at the key's own indent — valid YAML, and exactly
the layout the engine itself writes. The document parses to one item, the
candidate block parses to the very same item, tolerationsMatch holds on the
identity fields — yet the engine appends a duplicate (two-space deeper),
because mergeTolerations's collection loop stops at lines with indent ≤ the
key's indent and so never sees the aligned item. The final conjunct shows the
dedup does work as claimed when the same item sits two spaces deeper: the
output is unchanged, modified is false and the path is still marked handled. -/
theorem C3_dedup_misses_aligned_items_eval :
    (parseYamlMap "tolerations:\n- key: dedicated\n  operator: Exists"
      = some [("tolerations",
          .seq [.omap [("key", .str "dedicated"), ("operator", .str "Exists")]])]) ∧
    (tolerationsMatch [("key", .str "dedicated"), ("operator", .str "Exists")]
        [("key", .str "dedicated"), ("operator", .str "Exists")] = true) ∧
    (injectBlockIntoValuesPath "tolerations:\n- key: dedicated\n  operator: Exists"
        ⟨["tolerations"], "tolerations"⟩
        ["tolerations:\n- key: dedicated\n  operator: Exists"] 0
      = ("tolerations:\n  - key: dedicated\n    operator: Exists\n- key: dedicated\n  operator: Exists",
         true, true)) ∧
    (injectBlockIntoValuesPath "tolerations:\n  - key: dedicated\n    operator: Exists"
        ⟨["tolerations"], "tolerations"⟩
        ["tolerations:\n- key: dedicated\n  operator: Exists"] 0
      = ("tolerations:\n  - key: dedicated\n    operator: Exists",
         false, true)) := by
  refine ⟨?_, ?_, ?_, ?_⟩ <;> rfl

/-- C5 counterexample: the claim says the computed WrapperOffset equals the
indentation width actually used by the document's first content line. For a
wrapper document indented with four spaces the code still returns the constant
2. -/
theorem C5_wrapper_offset_counterexample :
    detectWrapperPattern "_internal_defaults_do_not_set:\n    replicas: 1" = 2 ∧
    getIndentation "    replicas: 1" = 4 ∧
    ((2 : Nat) == 4) = false := by
  refine ⟨?_, ?_, ?_⟩ <;> decide

/-- Helper for C5: the wrapper-detection loop returns 2 exactly when the first
colon-bearing, non-blank, non-comment line is a zero-indent known wrapper key,
and 0 otherwise. -/
theorem detectWrapperPattern_go_spec (ls : List String) :
    detectWrapperPattern.go ls = (if firstKeyIsWrapper.go ls then 2 else 0) := by
  induction ls with
  | nil => rfl
  | cons l rest ih =>
    simp only [detectWrapperPattern.go, firstKeyIsWrapper.go]
    by_cases h1 : (trimSpace l == "" || strStartsWith (trimSpace l) "#") = true
    · simp [h1, ih]
    · simp only [Bool.not_eq_true] at h1
      by_cases h2 : containsColon (trimSpace l) = true
      · simp [h1, h2]
      · simp only [Bool.not_eq_true] at h2
        simp [h1, h2, ih]

/-- C5 amended: detectWrapperPattern returns the constant 2 whenever the first
non-blank, non-comment line containing a colon is a zero-indent key in the
known wrapper set (the child indentation is assumed to be 2, not read from the
document), and 0 for every other document. -/
theorem C5_wrapper_offset_amended (content : String) :
    detectWrapperPattern content = (if firstKeyIsWrapper content then 2 else 0) := by
  unfold detectWrapperPattern firstKeyIsWrapper
  exact detectWrapperPattern_go_spec (splitLines content)

/-- C9 counterexample: the claim says a reference equal to "auto" is always
reported as existing and the store is never contacted for it. In the worker
body, a goroutine that cannot acquire a pool slot before the deadline records
false even for "auto"; and when a slot is acquired the worker contacts the
store (Head, then Get) before the special case is ever consulted. -/
theorem C9_auto_reference_counterexample :
    (checkImageWorker "auto" ⟨false, true, true, true⟩ = (false, 0)) ∧
    (checkImageWorker "auto" ⟨true, true, true, true⟩ = (true, 1)) ∧
    (((1 : Nat) == 0) = false) := by
  refine ⟨?_, ?_, ?_⟩ <;> decide

/-- C9 amended: the "auto" special case lives in the probe-failure branch:
whenever the worker acquires a pool slot before the deadline and the reference
parses, the result reported for "auto" is true — including when both Head and
Get fail — but the store is contacted at least once first; a worker that times
out waiting for a slot records false. -/
theorem C9_auto_reference_amended (o : ProbeOutcome)
    (h1 : o.slotAcquired = true) (h2 : o.parseOk = true) :
    (checkImageWorker "auto" o).1 = true ∧ 1 ≤ (checkImageWorker "auto" o).2 := by
  cases o with
  | mk slot parse hd gt =>
    simp only at h1 h2
    subst h1; subst h2
    cases hd <;> cases gt <;> simp [checkImageWorker]

/-- Witness for C9 amended at a concrete environment: slot acquired, parse ok,
Head and Get both fail. -/
theorem C9_auto_reference_witness :
    ((⟨true, true, false, false⟩ : ProbeOutcome).slotAcquired = true) ∧
    ((⟨true, true, false, false⟩ : ProbeOutcome).parseOk = true) ∧
    ((checkImageWorker "auto" ⟨true, true, false, false⟩).1 = true ∧
      1 ≤ (checkImageWorker "auto" ⟨true, true, false, false⟩).2) :=
  ⟨rfl, rfl, C9_auto_reference_amended ⟨true, true, false, false⟩ rfl rfl⟩

/-- C10: once a values.yaml.backup exists, backupValuesFile returns success and
leaves the filesystem — in particular the backup's contents — completely
untouched, so no later invocation can overwrite the backup. -/
theorem C10_backup_never_overwritten (fs : Fs) (chartPath v b : String)
    (hv : fs (chartPath ++ "/values.yaml") = some v)
    (hb : fs (chartPath ++ "/values.yaml" ++ ".backup") = some b) :
    backupValuesFile fs chartPath = (fs, Except.ok ()) ∧
    (backupValuesFile fs chartPath).1 (chartPath ++ "/values.yaml" ++ ".backup") = some b := by
  unfold backupValuesFile
  simp [hv, hb]

/-- Witness for C10 at a concrete two-file filesystem. -/
theorem C10_backup_never_overwritten_witness :
    ((fun p => if p = "c/values.yaml" then some "new" else
        if p = "c/values.yaml.backup" then some "orig" else none) "c/values.yaml"
      = some "new") ∧
    ((fun p => if p = "c/values.yaml" then some "new" else
        if p = "c/values.yaml.backup" then some "orig" else none) ("c" ++ "/values.yaml" ++ ".backup")
      = some "orig") ∧
    (backupValuesFile (fun p => if p = "c/values.yaml" then some "new" else
        if p = "c/values.yaml.backup" then some "orig" else none) "c"
      = ((fun p => if p = "c/values.yaml" then some "new" else
          if p = "c/values.yaml.backup" then some "orig" else none), Except.ok ()) ∧
      (backupValuesFile (fun p => if p = "c/values.yaml" then some "new" else
          if p = "c/values.yaml.backup" then some "orig" else none) "c").1
        ("c" ++ "/values.yaml" ++ ".backup") = some "orig") :=
  ⟨by decide, by decide,
    C10_backup_never_overwritten
      (fun p => if p = "c/values.yaml" then some "new" else
        if p = "c/values.yaml.backup" then some "orig" else none)
      "c" "new" "orig" (by decide) (by decide)⟩

/-- C6: on any manifest, no line is treated as the pod subtree for both the
bare single-workload kind (Pod) and a multi-replica kind — the two predicates
are complementary on the template-nesting test — and on two manifests with
identical inner structure, the injector puts the tolerations directly under
the first `spec:` for kind Pod but under the `template:`-owned `spec:` for
kind Deployment, leaving the other `spec:` untouched. The final conjunct
makes the classification explicit on those manifests: the Pod's only `spec:`
is not under a template section, while in the Deployment the outer `spec:` is
rejected and only the `template:`-nested one is selected. -/
theorem C6_pod_spec_selection :
    (∀ (lines : List String) (i : Nat),
      (isPodSpecLine "Pod" lines i && isPodSpecLine "Deployment" lines i) = false) ∧
    (injectInlinePodSpec
        "apiVersion: v1\nkind: Pod\nmetadata:\n  name: x\nspec:\n  containers:\n  - name: c\n    image: i"
        (fun c => if c = "allPods" then ["tolerations:\n- key: dedicated\n  operator: Exists"] else [])
        "Pod" false false
      = "apiVersion: v1\nkind: Pod\nmetadata:\n  name: x\nspec:\n  tolerations:\n  - key: dedicated\n    operator: Exists\n  containers:\n  - name: c\n    image: i") ∧
    (injectInlinePodSpec
        "apiVersion: apps/v1\nkind: Deployment\nmetadata:\n  name: x\nspec:\n  template:\n    spec:\n      containers:\n      - name: c\n        image: i"
        (fun c => if c = "allPods" then ["tolerations:\n- key: dedicated\n  operator: Exists"] else [])
        "Deployment" false false
      = "apiVersion: apps/v1\nkind: Deployment\nmetadata:\n  name: x\nspec:\n  template:\n    spec:\n      tolerations:\n      - key: dedicated\n        operator: Exists\n      containers:\n      - name: c\n        image: i") ∧
    (isPodSpecLine "Pod"
        (splitLines "apiVersion: v1\nkind: Pod\nmetadata:\n  name: x\nspec:\n  containers:\n  - name: c\n    image: i") 4 = true ∧
     isUnderTemplateSection
        (splitLines "apiVersion: v1\nkind: Pod\nmetadata:\n  name: x\nspec:\n  containers:\n  - name: c\n    image: i") 4 = false ∧
     isPodSpecLine "Deployment"
        (splitLines "apiVersion: apps/v1\nkind: Deployment\nmetadata:\n  name: x\nspec:\n  template:\n    spec:\n      containers:\n      - name: c\n        image: i") 4 = false ∧
     isPodSpecLine "Deployment"
        (splitLines "apiVersion: apps/v1\nkind: Deployment\nmetadata:\n  name: x\nspec:\n  template:\n    spec:\n      containers:\n      - name: c\n        image: i") 6 = true ∧
     isUnderTemplateSection
        (splitLines "apiVersion: apps/v1\nkind: Deployment\nmetadata:\n  name: x\nspec:\n  template:\n    spec:\n      containers:\n      - name: c\n        image: i") 6 = true) := by
  refine ⟨?_, by decide, by decide, by decide⟩
  intro lines i
  simp only [isPodSpecLine]
  cases h : isUnderTemplateSection lines i <;> simp [h]

/-- Helper for C2: the engine's scan loop is a frame simulation of its input —
every iteration either copies the head line verbatim (no path match) or, at a
match, consumes the head line plus the lines its handler consumed and emits
the handler's segment. Any tail appended after the input is exhausted is
absorbed by the `extra` parameter. -/
theorem injectLoop_frame (off : Nat) (ref : ValueReference) (blocks : List String) :
    ∀ (fuel : Nat) (st : PathStack) (lines extra : List String),
      lines.length < fuel →
      FrameSim off ref st lines ((injectLoop ref blocks off fuel st lines).1 ++ extra) := by
  intro fuel
  induction fuel with
  | zero => intro st lines extra h; omega
  | succ n ih =>
    intro st lines extra h
    match lines with
    | [] => exact FrameSim.stop st extra
    | l :: rest =>
      by_cases hm : lineMatches off ref st l = true
      · have hlen : (rest.drop (matchedSeg (ParseLine l) l rest blocks).2.1).length < n := by
          have := List.length_drop ((matchedSeg (ParseLine l) l rest blocks).2.1) rest
          simp only [List.length_cons] at h
          omega
        have hrec := ih (lineStackStep off st l)
          (rest.drop (matchedSeg (ParseLine l) l rest blocks).2.1) extra hlen
        have hout : (injectLoop ref blocks off (n + 1) st (l :: rest)).1 ++ extra
            = (matchedSeg (ParseLine l) l rest blocks).1 ++
              ((injectLoop ref blocks off n (lineStackStep off st l)
                (rest.drop (matchedSeg (ParseLine l) l rest blocks).2.1)).1 ++ extra) := by
          simp [injectLoop, hm, List.append_assoc]
        rw [hout]
        exact FrameSim.edit st l rest _ _ _ hm hrec
      · have hm2 : lineMatches off ref st l = false := by
          cases hval : lineMatches off ref st l
          · rfl
          · exact absurd hval hm
        have hlen : rest.length < n := by
          simp only [List.length_cons] at h; omega
        have hrec := ih (lineStackStep off st l) rest extra hlen
        have hout : (injectLoop ref blocks off (n + 1) st (l :: rest)).1 ++ extra
            = l :: ((injectLoop ref blocks off n (lineStackStep off st l) rest).1 ++ extra) := by
          simp [injectLoop, hm2]
        rw [hout]
        exact FrameSim.copy st l rest _ hm2 hrec

/-- C2: format preservation of the values patch engine. For every input
document, target reference, candidate block set and wrapper offset, the output
line sequence is a frame simulation of the input: every line outside a matched
target location is copied verbatim, in order; output may differ from the input
only in the segments emitted at lines whose wrapper-adjusted path matches the
target (together with the lines their handlers consume) and in a tail appended
after the end of the input. The second conjunct ties the simulated line list
to the actual string output of injectBlockIntoValuesPath. -/
theorem C2_frame_preservation (content : String) (ref : ValueReference)
    (blocks : List String) (off : Nat) :
    FrameSim off ref [] (splitLines content)
      (injectResultLines content ref blocks off).1 ∧
    (injectBlockIntoValuesPath content ref blocks off).1
      = joinLines (injectResultLines content ref blocks off).1 := by
  refine ⟨?_, rfl⟩
  unfold injectResultLines
  by_cases hc : (!(injectLoop ref blocks off ((splitLines content).length + 1) []
      (splitLines content)).2.2 && ref.path.length == 1) = true
  · simp only [hc, if_pos]
    unfold appendRootSection
    by_cases hb : (decide (0 < (injectLoop ref blocks off ((splitLines content).length + 1) []
        (splitLines content)).1.length) &&
        !(trimSpace ((injectLoop ref blocks off ((splitLines content).length + 1) []
          (splitLines content)).1.getLastD "") == "")) = true
    · simp only [hb, if_pos, List.append_assoc]
      exact injectLoop_frame off ref blocks _ [] (splitLines content) _ (Nat.lt_succ_self _)
    · simp only [Bool.not_eq_true] at hb
      simp only [hb, Bool.false_eq_true, if_neg, not_false_iff]
      exact injectLoop_frame off ref blocks _ [] (splitLines content) _ (Nat.lt_succ_self _)
  · simp only [Bool.not_eq_true] at hc
    simp only [hc, Bool.false_eq_true, if_neg, not_false_iff]
    have := injectLoop_frame off ref blocks ((splitLines content).length + 1) []
      (splitLines content) [] (Nat.lt_succ_self _)
    simpa using this

/-- pathsMatch only relates lists of equal length. -/
theorem pathsMatch_false_of_length_ne :
    ∀ (a b : List String), a.length ≠ b.length → pathsMatch a b = false := by
  intro a
  induction a with
  | nil => intro b h; cases b with
    | nil => simp at h
    | cons x xs => rfl
  | cons x xs ih =>
    intro b h
    cases b with
    | nil => rfl
    | cons y ys =>
      simp only [List.length_cons] at h
      have : xs.length ≠ ys.length := by omega
      simp [pathsMatch, ih ys this]

/-- Popping to indent 0 empties the stack. -/
theorem popToIndent_zero (st : PathStack) : st.popToIndent 0 = ([] : List PathLevel) := by
  induction st with
  | nil => rfl
  | cons l rest ih => simp [PathStack.popToIndent]

/-- ParseLine field projections independent of the key split. -/
theorem ParseLine_isEmpty (l : String) : (ParseLine l).isEmpty = (trimSpace l == "") := by
  simp only [ParseLine]
  split
  · split <;> rfl
  · rfl

/-- ParseLine comment flag. -/
theorem ParseLine_isComment (l : String) :
    (ParseLine l).isComment = strStartsWith (trimSpace l) "#" := by
  simp only [ParseLine]
  split
  · split <;> rfl
  · rfl

/-- ParseLine indentation. -/
theorem ParseLine_indent (l : String) : (ParseLine l).indent = getIndentation l := by
  simp only [ParseLine]
  split
  · split <;> rfl
  · rfl

/-- ParseLine colon flag. -/
theorem ParseLine_hasColon (l : String) :
    (ParseLine l).hasColon = containsColon (trimSpace l) := by
  simp only [ParseLine]
  split
  · split <;> rfl
  · rfl

/-- A blank or comment line is invisible to the scan: no match, no stack
change. -/
theorem lineMatches_blank (off : Nat) (ref : ValueReference) (st : PathStack)
    (l : String) (h : isBlankOrComment l = true) :
    lineMatches off ref st l = false ∧ lineStackStep off st l = st := by
  have hcond : ((ParseLine l).isEmpty || (ParseLine l).isComment) = true := by
    rw [ParseLine_isEmpty, ParseLine_isComment]
    simpa [isBlankOrComment] using h
  constructor
  · simp [lineMatches, hcond]
  · simp [lineStackStep, hcond]

/-- Leading-space count across a replicate prefix. -/
theorem countLeadingSpaces_replicate_append (n : Nat) (cs : List Char) :
    countLeadingSpaces (List.replicate n ' ' ++ cs) = n + countLeadingSpaces cs := by
  induction n with
  | zero => simp
  | succ m ih => simp [List.replicate_succ, countLeadingSpaces, ih]; omega

/-- dropWhile over a space replicate prefix. -/
theorem dropWhile_space_replicate (n : Nat) (cs : List Char) :
    List.dropWhile isSpaceCh (List.replicate n ' ' ++ cs) = List.dropWhile isSpaceCh cs := by
  induction n with
  | zero => simp
  | succ m ih => simp [List.replicate_succ, List.dropWhile, isSpaceCh, ih]

/-- A list whose members all fail the predicate is unchanged by dropWhile. -/
theorem dropWhile_eq_self_of_all_false {p : Char → Bool} :
    ∀ (cs : List Char), (∀ c ∈ cs, p c = false) → List.dropWhile p cs = cs := by
  intro cs h
  cases cs with
  | nil => rfl
  | cons c rest => simp [List.dropWhile, h c (List.mem_cons_self c rest)]

/-- Splitting at the first colon of `kd ++ [':']` when kd is colon-free. -/
theorem splitFirstColonAux_append_colon :
    ∀ (kd : List Char), (∀ c ∈ kd, (c == ':') = false) →
      splitFirstColonAux (kd ++ [':']) = some (kd, []) := by
  intro kd
  induction kd with
  | nil => intro _; rfl
  | cons c rest ih =>
    intro h
    have hc : (c == ':') = false := h c (List.mem_cons_self c rest)
    have hcne : ¬(c = ':') := by simpa using hc
    simp only [List.cons_append, splitFirstColonAux, if_neg hcne, List.append_eq,
      ih (fun x hx => h x (List.mem_cons_of_mem c hx))]

/-- Membership form of a clean key token. -/
theorem cleanKeyB_spec (key : String) (hk : cleanKeyB key = true) :
    key.data ≠ [] ∧ ∀ c ∈ key.data,
      isSpaceCh c = false ∧ (c == ':') = false ∧ (c == '#') = false := by
  simp only [cleanKeyB, Bool.and_eq_true, Bool.not_eq_true', beq_eq_false_iff_ne,
    List.all_eq_true] at hk
  obtain ⟨hne, hall⟩ := hk
  refine ⟨?_, ?_⟩
  · intro hdata
    apply hne
    cases key with
    | mk d => simp_all
  · intro c hc
    have := hall c hc
    simp only [Bool.and_eq_true, Bool.not_eq_true'] at this
    refine ⟨this.1.1, ?_, ?_⟩
    · simpa using this.1.2
    · simpa using this.2

/-- A final element is found by contains. -/
theorem contains_append_singleton (cs : List Char) (c : Char) :
    (cs ++ [c]).contains c = true := by
  induction cs with
  | nil => simp
  | cons x xs ih => simp [ih]

/-- The trimmed form of the appended key line. -/
theorem trimSpace_keyLine (off : Nat) (key : String) (hk : cleanKeyB key = true) :
    trimSpace (repeatSpaces off ++ key ++ ":") = key ++ ":" := by
  obtain ⟨hne, hchars⟩ := cleanKeyB_spec key hk
  have hallns : ∀ c ∈ key.data ++ [':'], isSpaceCh c = false := by
    intro c hc
    rcases List.mem_append.mp hc with h1 | h1
    · exact (hchars c h1).1
    · simp only [List.mem_singleton] at h1
      subst h1; rfl
  have hdata : (repeatSpaces off ++ key ++ ":").data
      = List.replicate off ' ' ++ (key.data ++ [':']) := by
    simp [repeatSpaces, chStr, String.data_append, List.append_assoc]
  unfold trimSpace
  rw [hdata, dropWhile_space_replicate,
    dropWhile_eq_self_of_all_false _ hallns,
    dropWhile_eq_self_of_all_false _ (fun c hc => hallns c (List.mem_reverse.mp hc)),
    List.reverse_reverse]
  rfl

/-- The indentation of the appended key line. -/
theorem getIndentation_keyLine (off : Nat) (key : String) (hk : cleanKeyB key = true) :
    getIndentation (repeatSpaces off ++ key ++ ":") = off := by
  obtain ⟨hne, hchars⟩ := cleanKeyB_spec key hk
  have hdata : (repeatSpaces off ++ key ++ ":").data
      = List.replicate off ' ' ++ (key.data ++ [':']) := by
    simp [repeatSpaces, chStr, String.data_append, List.append_assoc]
  unfold getIndentation
  rw [hdata, countLeadingSpaces_replicate_append]
  cases hd : key.data with
  | nil => exact absurd hd hne
  | cons c rest =>
    have hcs : isSpaceCh c = false := by
      have := (hchars c (by rw [hd]; exact List.mem_cons_self c rest)).1
      exact this
    have hcsp : ¬(c = ' ') := by
      intro h; subst h; simp [isSpaceCh] at hcs
    simp [countLeadingSpaces, hcsp]

/-- ParseLine on the appended key line. -/
theorem ParseLine_keyLine (off : Nat) (key : String) (hk : cleanKeyB key = true) :
    ParseLine (repeatSpaces off ++ key ++ ":") =
      { raw := repeatSpaces off ++ key ++ ":", trimmed := key ++ ":", indent := off,
        isEmpty := false, isComment := false, key := key, value := "",
        hasColon := true, valueIndent := 0 } := by
  obtain ⟨hne, hchars⟩ := cleanKeyB_spec key hk
  have htrim := trimSpace_keyLine off key hk
  have hind := getIndentation_keyLine off key hk
  have hdatak : (key ++ ":").data = key.data ++ [':'] := by
    simp [String.data_append]
  have hcolon : containsColon (key ++ ":") = true := by
    unfold containsColon
    rw [hdatak]
    exact contains_append_singleton key.data ':'
  have hcomment : strStartsWith (key ++ ":") "#" = false := by
    unfold strStartsWith
    rw [hdatak]
    cases hd : key.data with
    | nil => exact absurd hd hne
    | cons c rest =>
      have : (c == '#') = false :=
        (hchars c (by rw [hd]; exact List.mem_cons_self c rest)).2.2
      have hcne : ('#' == c) = false := by
        simp only [beq_eq_false_iff_ne] at this ⊢
        exact fun h => this h.symm
      simp [listPrefixB, hcne]
  have hempty : (key ++ ":" == "") = false := by
    simp only [beq_eq_false_iff_ne]
    intro h
    have := congrArg String.data h
    rw [hdatak] at this
    simp at this
  have hsplit : splitFirstColon (key ++ ":") = some (key, "") := by
    unfold splitFirstColon
    rw [hdatak, splitFirstColonAux_append_colon key.data
      (fun c hc => (hchars c hc).2.1)]
    cases key with
    | mk d => rfl
  have htrimkey : trimSpace key = key := by
    unfold trimSpace
    rw [dropWhile_eq_self_of_all_false _ (fun c hc => (hchars c hc).1),
      dropWhile_eq_self_of_all_false _
        (fun c hc => (hchars c (List.mem_reverse.mp hc)).1),
      List.reverse_reverse]
    cases key with
    | mk d => rfl
  simp only [ParseLine, htrim, hind, hcolon, hcomment, hempty, hsplit, htrimkey]
  rfl

/-- The appended key line matches the root path and resets the stack to its
single level, for any incoming stack. -/
theorem lineMatches_keyLine (off : Nat) (ref : ValueReference) (st : PathStack)
    (key : String) (hk : cleanKeyB key = true) (hpath : ref.path = [key]) :
    lineMatches off ref st (repeatSpaces off ++ key ++ ":") = true ∧
    lineStackStep off st (repeatSpaces off ++ key ++ ":")
      = ([⟨0, key⟩] : List PathLevel) := by
  have hpl := ParseLine_keyLine off key hk
  constructor
  · simp only [lineMatches, hpl]
    cases off with
    | zero =>
      simp [popToIndent_zero, PathStack.push, PathStack.currentPath, hpath, pathsMatch]
    | succ m =>
      simp [popToIndent_zero, PathStack.push, PathStack.currentPath, hpath, pathsMatch,
        Nat.sub_self]
  · simp only [lineStackStep, hpl]
    cases off with
    | zero => simp [popToIndent_zero, PathStack.push]
    | succ m => simp [popToIndent_zero, PathStack.push, Nat.sub_self]

/-- popToIndent keeps a zero-indent bottom level once the target indent is
positive. -/
theorem popToIndent_append_bottom (key : String) :
    ∀ (sb : List PathLevel) (ind : Nat), 1 ≤ ind →
      PathStack.popToIndent (sb ++ [⟨0, key⟩]) ind
        = PathStack.popToIndent sb ind ++ [⟨0, key⟩] := by
  intro sb
  induction sb with
  | nil =>
    intro ind hind
    have h0 : (decide (ind ≤ 0)) = false := by simp; omega
    have h1 : (decide (ind = 0)) = false := by simp; omega
    simp [PathStack.popToIndent, List.dropWhile, h0, h1]
  | cons x xs ih =>
    intro ind hind
    simp only [PathStack.popToIndent, List.cons_append, List.dropWhile]
    by_cases hx : decide (ind ≤ x.indent) = true
    · simp only [hx]
      exact ih ind hind
    · simp only [Bool.not_eq_true] at hx
      simp [hx]

/-- A wellformed body line neither matches the root path nor disturbs the
zero-indent bottom of the stack. -/
theorem body_line_step (off : Nat) (ref : ValueReference) (key : String)
    (hpath : ref.path = [key]) (l : String) (sb : List PathLevel)
    (hok : bodyOkB off l = true) :
    lineMatches off ref (sb ++ [⟨0, key⟩]) l = false ∧
    ∃ sb2, lineStackStep off (sb ++ [⟨0, key⟩]) l = sb2 ++ [⟨0, key⟩] := by
  simp only [bodyOkB, Bool.and_eq_true, Bool.or_eq_true] at hok
  obtain ⟨_hnl, hrest⟩ := hok
  by_cases hbc : isBlankOrComment l = true
  · obtain ⟨hm, hs⟩ := lineMatches_blank off ref (sb ++ [⟨0, key⟩]) l hbc
    exact ⟨hm, sb, hs⟩
  · have hlt : off < getIndentation l := by
      rcases hrest with h | h
      · exact absurd h hbc
      · simpa using h
    have hbc2 : isBlankOrComment l = false := by
      cases hv : isBlankOrComment l
      · rfl
      · exact absurd hv hbc
    simp only [isBlankOrComment, Bool.or_eq_false_iff, beq_eq_false_iff_ne] at hbc2
    have hcond : ((ParseLine l).isEmpty || (ParseLine l).isComment) = false := by
      rw [ParseLine_isEmpty, ParseLine_isComment]
      simp only [Bool.or_eq_false_iff]
      constructor
      · simpa using hbc2.1
      · exact hbc2.2
    have hwrap : (decide (0 < off) && (ParseLine l).indent == 0 &&
        (ParseLine l).hasColon && KnownWrapperKeys.contains (ParseLine l).key) = false := by
      cases off with
      | zero => simp
      | succ m =>
        rw [ParseLine_indent]
        have : (getIndentation l == 0) = false := by
          simp only [beq_eq_false_iff_ne]
          omega
        simp [this]
    have hindGe : 1 ≤ (if (decide (0 < off) && decide (off ≤ (ParseLine l).indent)) = true
        then (ParseLine l).indent - off else (ParseLine l).indent) := by
      rw [ParseLine_indent]
      cases off with
      | zero => simpa using hlt
      | succ m =>
        have hle : decide (m + 1 ≤ getIndentation l) = true := by
          simp; omega
        simp only [hle]
        simp
        omega
    constructor
    · simp only [lineMatches, hcond, Bool.false_eq_true, if_neg, not_false_iff, hwrap]
      by_cases hcol : (ParseLine l).hasColon = true
      · simp only [hcol, if_pos]
        apply pathsMatch_false_of_length_ne
        rw [popToIndent_append_bottom key sb _ hindGe, hpath]
        simp [PathStack.push, PathStack.currentPath]
      · simp only [Bool.not_eq_true] at hcol
        simp [hcol]
    · simp only [lineStackStep, hcond, Bool.false_eq_true, if_neg, not_false_iff, hwrap]
      rw [popToIndent_append_bottom key sb _ hindGe]
      by_cases hcol : (ParseLine l).hasColon = true
      · simp only [hcol, if_pos]
        exact ⟨_ :: _, rfl⟩
      · simp only [Bool.not_eq_true] at hcol
        simp only [hcol, Bool.false_eq_true, if_neg, not_false_iff]
        exact ⟨_, rfl⟩

/-- No wellformed body line ever matches, by induction along the segment. -/
theorem scanMatchCount_body (off : Nat) (ref : ValueReference) (key : String)
    (hpath : ref.path = [key]) :
    ∀ (ls : List String) (sb : List PathLevel), ls.all (bodyOkB off) = true →
      scanMatchCount ref off (sb ++ [⟨0, key⟩]) ls = 0 := by
  intro ls
  induction ls with
  | nil => intro sb _; rfl
  | cons l rest ih =>
    intro sb hall
    simp only [List.all_cons, Bool.and_eq_true] at hall
    obtain ⟨hm, sb2, hs⟩ := body_line_step off ref key hpath l sb hall.1
    simp only [scanMatchCount, hm, Bool.false_eq_true, if_neg, not_false_iff, hs]
    simpa using ih sb2 hall.2

/-- When the scan never matches, the engine's loop copies every line verbatim
and reports no change. -/
theorem injectLoop_no_match (off : Nat) (ref : ValueReference) (blocks : List String) :
    ∀ (fuel : Nat) (st : PathStack) (lines : List String),
      lines.length < fuel →
      scanMatchCount ref off st lines = 0 →
      injectLoop ref blocks off fuel st lines = (lines, false, false) := by
  intro fuel
  induction fuel with
  | zero => intro st lines h _; omega
  | succ n ih =>
    intro st lines h hcount
    match lines with
    | [] => rfl
    | l :: rest =>
      have hm : lineMatches off ref st l = false := by
        cases hv : lineMatches off ref st l
        · rfl
        · simp [scanMatchCount, hv] at hcount
      have hrest : scanMatchCount ref off (lineStackStep off st l) rest = 0 := by
        simpa [scanMatchCount, hm] using hcount
      have hlen : rest.length < n := by
        simp only [List.length_cons] at h; omega
      simp [injectLoop, hm, ih (lineStackStep off st l) rest hlen hrest]

/-- The scan count splits over list append, threading the stack. -/
theorem scanMatchCount_append (ref : ValueReference) (off : Nat) :
    ∀ (A B : List String) (st : PathStack),
      scanMatchCount ref off st (A ++ B)
        = scanMatchCount ref off st A +
          scanMatchCount ref off (A.foldl (lineStackStep off) st) B := by
  intro A
  induction A with
  | nil => intro B st; simp [scanMatchCount]
  | cons l rest ih =>
    intro B st
    simp only [List.cons_append, scanMatchCount, List.foldl_cons, List.append_eq]
    rw [ih B (lineStackStep off st l)]
    omega

/-- At a key line whose inline value is one of the three empty markers, when
the lookahead of the empty-value branch finds no indented content after it,
every branch of the matched segment collapses to the empty-value injection
step. -/
theorem matchedSeg_empty (yl : YAMLLine) (l : String) (rest blocks : List String)
    (he : yl.value = "" ∨ yl.value = "[]" ∨ yl.value = "\x7b\x7d")
    (hnc : hasExistingContentCheck rest yl.indent = false) :
    matchedSeg yl l rest blocks = emptyInjectSeg yl blocks := by
  have hv : (yl.value == "" || yl.value == "[]" || yl.value == "\x7b\x7d") = true := by
    rcases he with h | h | h <;> simp [h]
  simp only [matchedSeg, hv, if_true, hnc, Bool.false_eq_true, if_false]
  split <;> rfl

/-- The scan loop copies a match-free prefix verbatim, consuming one unit of
fuel per line, and continues on the tail with the stack threaded through the
prefix. -/
theorem injectLoop_append_no_match (off : Nat) (ref : ValueReference)
    (blocks : List String) :
    ∀ (pre : List String) (st : PathStack) (tail : List String) (fuel : Nat),
      scanMatchCount ref off st pre = 0 →
      injectLoop ref blocks off (pre.length + fuel) st (pre ++ tail)
        = (pre ++ (injectLoop ref blocks off fuel
              (pre.foldl (lineStackStep off) st) tail).1,
           (injectLoop ref blocks off fuel
              (pre.foldl (lineStackStep off) st) tail).2) := by
  intro pre
  induction pre with
  | nil =>
    intro st tail fuel _
    simp only [List.length_nil, Nat.zero_add, List.nil_append, List.foldl_nil]
  | cons p ps ih =>
    intro st tail fuel hcount
    have hm : lineMatches off ref st p = false := by
      cases hv : lineMatches off ref st p
      · rfl
      · simp [scanMatchCount, hv] at hcount
    have hrest : scanMatchCount ref off (lineStackStep off st p) ps = 0 := by
      simpa [scanMatchCount, hm] using hcount
    have hlen : (p :: ps).length + fuel = ps.length + fuel + 1 := by
      simp only [List.length_cons]; omega
    rw [hlen]
    simp only [List.cons_append, injectLoop, hm, Bool.false_eq_true, if_neg,
      not_false_iff, List.foldl_cons, List.append_eq]
    rw [ih (lineStackStep off st p) tail fuel hrest]

/-- One matched step of the scan loop: the handler's segment is emitted and
the loop continues after the lines the handler consumed. -/
theorem injectLoop_match_step (off : Nat) (ref : ValueReference)
    (blocks : List String) (fuel : Nat) (st : PathStack) (l : String)
    (rest : List String) (hm : lineMatches off ref st l = true) :
    injectLoop ref blocks off (fuel + 1) st (l :: rest)
      = ((matchedSeg (ParseLine l) l rest blocks).1 ++
          (injectLoop ref blocks off fuel (lineStackStep off st l)
            (rest.drop (matchedSeg (ParseLine l) l rest blocks).2.1)).1,
         (matchedSeg (ParseLine l) l rest blocks).2.2.1 ||
           (injectLoop ref blocks off fuel (lineStackStep off st l)
             (rest.drop (matchedSeg (ParseLine l) l rest blocks).2.1)).2.1,
         (matchedSeg (ParseLine l) l rest blocks).2.2.2 ||
           (injectLoop ref blocks off fuel (lineStackStep off st l)
             (rest.drop (matchedSeg (ParseLine l) l rest blocks).2.1)).2.2) := by
  simp [injectLoop, hm]

/-- C4: in any values document that splits as a prefix, a key line and a
remainder, where the prefix never matches the target, the key line matches it
with an empty inline value (absent, `[]`, or the empty flow mapping), and the
code's own lookahead finds no indented content in the remainder, the engine
copies the prefix verbatim, rewrites the key line without the inline marker,
writes every candidate block body one level (2 spaces) deeper than the key —
except for the tolerations key, whose body (the list markers) is written at
the key's own indent — and continues the scan on the remainder; when the
remainder contains no further match it is preserved verbatim and the final
output string is the joined result with both flags set. -/
theorem C4_empty_value_injection (content : String) (ref : ValueReference)
    (blocks : List String) (off : Nat) (pre rest : List String) (l : String)
    (hsplit : splitLines content = pre ++ l :: rest)
    (hnopre : scanMatchCount ref off [] pre = 0)
    (hm : lineMatches off ref (pre.foldl (lineStackStep off) []) l = true)
    (he : (ParseLine l).value = "" ∨ (ParseLine l).value = "[]" ∨
      (ParseLine l).value = "\x7b\x7d")
    (hnc : hasExistingContentCheck rest (ParseLine l).indent = false) :
    (injectResultLines content ref blocks off
      = (pre ++
          ((repeatSpaces (ParseLine l).indent ++ (ParseLine l).key ++ ":") ::
            injectBlockLines blocks
              ((if (ParseLine l).key == "tolerations" then 0 else 2) +
                (ParseLine l).indent) (ParseLine l).key) ++
          (injectLoop ref blocks off (rest.length + 1)
            (lineStackStep off (pre.foldl (lineStackStep off) []) l) rest).1,
         true, true)) ∧
    (scanMatchCount ref off
        (lineStackStep off (pre.foldl (lineStackStep off) []) l) rest = 0 →
      injectBlockIntoValuesPath content ref blocks off
        = (joinLines (pre ++
            ((repeatSpaces (ParseLine l).indent ++ (ParseLine l).key ++ ":") ::
              injectBlockLines blocks
                ((if (ParseLine l).key == "tolerations" then 0 else 2) +
                  (ParseLine l).indent) (ParseLine l).key) ++ rest),
           true, true)) := by
  have hflen : (splitLines content).length + 1 = pre.length + (rest.length + 1 + 1) := by
    rw [hsplit]; simp only [List.length_append, List.length_cons]; omega
  have hseg : matchedSeg (ParseLine l) l rest blocks
      = emptyInjectSeg (ParseLine l) blocks :=
    matchedSeg_empty (ParseLine l) l rest blocks he hnc
  have hstep := injectLoop_match_step off ref blocks (rest.length + 1)
    (pre.foldl (lineStackStep off) []) l rest hm
  rw [hseg] at hstep
  simp only [emptyInjectSeg, List.drop_zero, Bool.true_or] at hstep
  have hpre := injectLoop_append_no_match off ref blocks pre [] (l :: rest)
    (rest.length + 1 + 1) hnopre
  rw [hstep] at hpre
  have h1 : injectResultLines content ref blocks off
      = (pre ++
          ((repeatSpaces (ParseLine l).indent ++ (ParseLine l).key ++ ":") ::
            injectBlockLines blocks
              ((if (ParseLine l).key == "tolerations" then 0 else 2) +
                (ParseLine l).indent) (ParseLine l).key) ++
          (injectLoop ref blocks off (rest.length + 1)
            (lineStackStep off (pre.foldl (lineStackStep off) []) l) rest).1,
         true, true) := by
    simp only [injectResultLines]
    rw [hflen, hsplit, hpre]
    simp [List.append_assoc]
  refine ⟨h1, ?_⟩
  intro hrest
  have hcont := injectLoop_no_match off ref blocks (rest.length + 1)
    (lineStackStep off (pre.foldl (lineStackStep off) []) l) rest
    (Nat.lt_succ_self _) hrest
  simp only [injectBlockIntoValuesPath, h1, hcont]

/-- Witness for C4 at concrete inputs that exercise the lookahead
non-vacuously: a root `tolerations: []` followed by a comment, a blank line
and a sibling key, and a nested absent-valued `affinity` under `webhook`
followed by a same-indent sibling. The tolerations body lands at the key's own
indent (the spec scenario: exactly one list item), the affinity body two
spaces deeper. -/
theorem C4_empty_value_injection_witness :
    (splitLines "tolerations: []\n# note\n\nother: x"
      = [] ++ "tolerations: []" :: ["# note", "", "other: x"]) ∧
    (scanMatchCount ⟨["tolerations"], "tolerations"⟩ 0 [] [] = 0) ∧
    (lineMatches 0 ⟨["tolerations"], "tolerations"⟩ [] "tolerations: []" = true) ∧
    ((ParseLine "tolerations: []").value = "[]") ∧
    (hasExistingContentCheck ["# note", "", "other: x"]
      (ParseLine "tolerations: []").indent = false) ∧
    (injectBlockIntoValuesPath "tolerations: []\n# note\n\nother: x"
        ⟨["tolerations"], "tolerations"⟩
        ["tolerations:\n- key: dedicated\n  operator: Exists"] 0
      = ("tolerations:\n- key: dedicated\n  operator: Exists\n# note\n\nother: x",
         true, true)) ∧
    (injectBlockIntoValuesPath "webhook:\n  affinity:\n  timeout: 5"
        ⟨["webhook", "affinity"], "affinity"⟩
        ["affinity:\n  podAntiAffinity:\n    x: y"] 0
      = ("webhook:\n  affinity:\n    podAntiAffinity:\n      x: y\n  timeout: 5",
         true, true)) := by
  refine ⟨by decide, by decide, by decide, by decide, by decide, ?_, ?_⟩
  · have h := (C4_empty_value_injection "tolerations: []\n# note\n\nother: x"
      ⟨["tolerations"], "tolerations"⟩
      ["tolerations:\n- key: dedicated\n  operator: Exists"] 0
      [] ["# note", "", "other: x"] "tolerations: []"
      (by decide) (by decide) (by decide) (Or.inr (Or.inl (by decide)))
      (by decide)).2 (by decide)
    exact h.trans (by decide)
  · have h := (C4_empty_value_injection "webhook:\n  affinity:\n  timeout: 5"
      ⟨["webhook", "affinity"], "affinity"⟩
      ["affinity:\n  podAntiAffinity:\n    x: y"] 0
      ["webhook:"] ["  timeout: 5"] "  affinity:"
      (by decide) (by decide) (by decide) (Or.inl (by decide))
      (by decide)).2 (by decide)
    exact h.trans (by decide)

/-- contains is false when the sought element matches nothing. -/
theorem contains_eq_false_of_all_ne :
    ∀ (cs : List Char) (a : Char), (∀ c ∈ cs, (a == c) = false) → cs.contains a = false := by
  intro cs a
  induction cs with
  | nil => intro _; rfl
  | cons c rest ih =>
    intro h
    have hc := h c (List.mem_cons_self c rest)
    simp only [List.contains_cons, hc, Bool.false_or]
    exact ih (fun x hx => h x (List.mem_cons_of_mem c hx))

/-- Every piece produced by the newline splitter is newline-free. -/
theorem splitNlAux_noNl :
    ∀ (cs : List Char), ∀ p ∈ splitNlAux cs, p.contains '\n' = false := by
  intro cs
  induction cs with
  | nil =>
    intro p hp
    simp only [splitNlAux, List.mem_singleton] at hp
    subst hp; rfl
  | cons c rest ih =>
    intro p hp
    simp only [splitNlAux] at hp
    by_cases hc : c = '\n'
    · simp only [hc, if_pos] at hp
      rcases List.mem_cons.mp hp with h | h
      · subst h; rfl
      · exact ih p h
    · simp only [if_neg hc] at hp
      cases heq : splitNlAux rest with
      | nil =>
        rw [heq] at hp
        simp only [List.mem_singleton] at hp
        subst hp
        simp
        exact fun h => hc h.symm
      | cons h0 t0 =>
        rw [heq] at hp
        rcases List.mem_cons.mp hp with h | h
        · subst h
          have h0nl : h0.contains '\n' = false := by
            apply ih
            rw [heq]; exact List.mem_cons_self h0 t0
          simp only [List.elem_eq_mem, decide_eq_false_iff_not] at h0nl ⊢
          simp only [List.mem_cons, not_or]
          exact ⟨fun h => hc h.symm, h0nl⟩
        · apply ih
          rw [heq]; exact List.mem_cons_of_mem h0 h

/-- A newline-free character list splits into itself. -/
theorem splitNlAux_of_noNl :
    ∀ (cs : List Char), cs.contains '\n' = false → splitNlAux cs = [cs] := by
  intro cs
  induction cs with
  | nil => intro _; rfl
  | cons c rest ih =>
    intro h
    simp only [List.contains_cons, Bool.or_eq_false_iff, beq_eq_false_iff_ne] at h
    have hc : ¬(c = '\n') := fun hx => h.1 hx.symm
    have hr : rest.contains '\n' = false := h.2
    simp [splitNlAux, if_neg hc, ih hr]

/-- Splitting at an explicit separator after a newline-free prefix. -/
theorem splitNlAux_append_newline :
    ∀ (xs ys : List Char), xs.contains '\n' = false →
      splitNlAux (xs ++ '\n' :: ys) = xs :: splitNlAux ys := by
  intro xs
  induction xs with
  | nil => intro ys _; simp [splitNlAux]
  | cons c rest ih =>
    intro ys h
    simp only [List.contains_cons, Bool.or_eq_false_iff, beq_eq_false_iff_ne] at h
    have hc : ¬(c = '\n') := fun hx => h.1 hx.symm
    simp [splitNlAux, if_neg hc, ih ys h.2]

/-- Rebuilding a string from its own characters. -/
theorem chStr_data (s : String) : chStr s.data = s := by
  cases s; rfl

/-- Every line produced by splitLines is newline-free. -/
theorem splitLines_noNl (s : String) : ∀ l ∈ splitLines s, lineNoNl l = true := by
  intro l hl
  simp only [splitLines, List.mem_map] at hl
  obtain ⟨p, hp, rfl⟩ := hl
  have := splitNlAux_noNl s.data p hp
  simp only [lineNoNl, chStr]
  simpa using this

/-- splitLines never returns the empty list. -/
theorem splitLines_ne_nil (s : String) : splitLines s ≠ [] := by
  have : ∀ cs : List Char, splitNlAux cs ≠ [] := by
    intro cs
    cases cs with
    | nil => simp [splitNlAux]
    | cons c rest =>
      simp only [splitNlAux]
      by_cases hc : c = '\n'
      · simp [hc]
      · simp only [if_neg hc]
        cases splitNlAux rest <;> simp
  simp [splitLines, this s.data]

/-- splitLines inverts joinLines on nonempty lists of newline-free lines. -/
theorem splitLines_joinLines :
    ∀ (ls : List String), ls ≠ [] → (∀ l ∈ ls, lineNoNl l = true) →
      splitLines (joinLines ls) = ls := by
  intro ls
  induction ls with
  | nil => intro h _; exact absurd rfl h
  | cons l rest ih =>
    intro _ hnl
    have hlnl : l.data.contains '\n' = false := by
      have := hnl l (List.mem_cons_self l rest)
      simpa [lineNoNl] using this
    cases rest with
    | nil =>
      show splitLines l = [l]
      simp [splitLines, splitNlAux_of_noNl l.data hlnl, chStr_data]
    | cons l2 rest2 =>
      have hjoin : joinLines (l :: l2 :: rest2) = l ++ "\n" ++ joinLines (l2 :: rest2) := rfl
      have hdata : (l ++ "\n" ++ joinLines (l2 :: rest2)).data
          = l.data ++ '\n' :: (joinLines (l2 :: rest2)).data := by
        simp [String.data_append]
      rw [hjoin]
      simp only [splitLines, hdata, splitNlAux_append_newline l.data _ hlnl, List.map_cons,
        chStr_data]
      have hrec := ih (by simp) (fun x hx => hnl x (List.mem_cons_of_mem l hx))
      simp only [splitLines] at hrec
      rw [hrec]

/-- The appended key line contains no newline. -/
theorem lineNoNl_keyLine (off : Nat) (key : String) (hk : cleanKeyB key = true) :
    lineNoNl (repeatSpaces off ++ key ++ ":") = true := by
  obtain ⟨_, hchars⟩ := cleanKeyB_spec key hk
  have hdata : (repeatSpaces off ++ key ++ ":").data
      = List.replicate off ' ' ++ (key.data ++ [':']) := by
    simp [repeatSpaces, chStr, String.data_append, List.append_assoc]
  simp only [lineNoNl, hdata]
  rw [contains_eq_false_of_all_ne]
  · rfl
  · intro c hc
    rcases List.mem_append.mp hc with h | h
    · have hsp : c = ' ' := List.eq_of_mem_replicate h
      subst hsp; decide
    · rcases List.mem_append.mp h with h2 | h2
      · have hsp := (hchars c h2).1
        have hne2 : ¬(c = '\n') := by
          intro hh; subst hh; simp [isSpaceCh] at hsp
        simp only [beq_eq_false_iff_ne]
        exact fun hh => hne2 hh.symm
      · simp only [List.mem_singleton] at h2
        subst h2; decide

/-- C7 amended: when a length-one target path is never matched while scanning
the whole document, the engine appends the new root-level section at the end
of the document (for a wrapped document the wrapper encloses the remainder of
the document, so this is the end of its content region), indented by the
wrapper offset, preceded by exactly one blank separator line iff the document
does not already end in a blank line; and — provided the candidates are not
single-line scalars and their body lines stay deeper than the offset — the
target path matches exactly once in the patched output. (The original claim's
unconditional "appears exactly once" fails for multiple single-line scalar
candidates, see the counterexample.) -/
theorem C7_root_append_amended (content : String) (ref : ValueReference)
    (blocks : List String) (off : Nat) (key : String)
    (hpath : ref.path = [key])
    (hkey : cleanKeyB key = true)
    (hnf : scanMatchCount ref off [] (splitLines content) = 0)
    (hsingle : isSingleLineScalar blocks key = false)
    (hbody : (injectBlockLines blocks (2 + off) key).all (bodyOkB off) = true) :
    (injectResultLines content ref blocks off
      = (splitLines content ++
          ((if trimSpace ((splitLines content).getLastD "") == "" then [] else [""]) ++
           ((repeatSpaces off ++ key ++ ":") :: injectBlockLines blocks (2 + off) key)),
         true, true)) ∧
    scanMatchCount ref off [] (injectResultLines content ref blocks off).1 = 1 ∧
    splitLines ((injectBlockIntoValuesPath content ref blocks off).1)
      = (injectResultLines content ref blocks off).1 := by
  have hlen : (splitLines content).length < (splitLines content).length + 1 :=
    Nat.lt_succ_self _
  have hloop := injectLoop_no_match off ref blocks ((splitLines content).length + 1)
    [] (splitLines content) hlen hnf
  have hpos : decide (0 < (splitLines content).length) = true := by
    have := splitLines_ne_nil content
    simp only [decide_eq_true_eq, List.length_pos]
    exact this
  have h1 : injectResultLines content ref blocks off
      = (splitLines content ++
          ((if trimSpace ((splitLines content).getLastD "") == "" then [] else [""]) ++
           ((repeatSpaces off ++ key ++ ":") :: injectBlockLines blocks (2 + off) key)),
         true, true) := by
    simp only [injectResultLines, hloop, hpath]
    simp only [appendRootSection, hpos, hsingle]
    by_cases hlast : trimSpace ((splitLines content).getLast?.getD "") = ""
    · simp [hlast, hsingle]
    · simp [hlast, hsingle, List.append_assoc]
  have h2 : scanMatchCount ref off [] (injectResultLines content ref blocks off).1 = 1 := by
    rw [h1]
    show scanMatchCount ref off [] (splitLines content ++ _) = 1
    rw [scanMatchCount_append, hnf]
    have hbodyZero := scanMatchCount_body off ref key hpath
      (injectBlockLines blocks (2 + off) key) [] hbody
    simp only [List.nil_append] at hbodyZero
    by_cases hlast : (trimSpace ((splitLines content).getLastD "") == "") = true
    · simp only [hlast, if_pos, List.nil_append]
      obtain ⟨hm, hs⟩ := lineMatches_keyLine off ref
        ((splitLines content).foldl (lineStackStep off) []) key hkey hpath
      simp only [scanMatchCount, hm, if_pos, hs, hbodyZero]
    · simp only [Bool.not_eq_true] at hlast
      simp only [hlast, Bool.false_eq_true, if_neg, not_false_iff, List.cons_append,
        List.nil_append]
      have hblank := lineMatches_blank off ref
        ((splitLines content).foldl (lineStackStep off) []) "" (by rfl)
      simp only [scanMatchCount, hblank.1, Bool.false_eq_true, if_neg, not_false_iff,
        hblank.2]
      obtain ⟨hm, hs⟩ := lineMatches_keyLine off ref
        ((splitLines content).foldl (lineStackStep off) []) key hkey hpath
      simp only [hm, if_pos, hs, hbodyZero]
  have hall : ∀ l ∈ (injectResultLines content ref blocks off).1, lineNoNl l = true := by
    rw [h1]
    intro l hl
    rcases List.mem_append.mp hl with h | h
    · exact splitLines_noNl content l h
    · rcases List.mem_append.mp h with h2 | h2
      · have : l = "" := by
          by_cases hlast : (trimSpace ((splitLines content).getLastD "") == "") = true
          · rw [hlast] at h2; simp at h2
          · simp only [Bool.not_eq_true] at hlast
            rw [hlast] at h2
            simpa using h2
        subst this; rfl
      · rcases List.mem_cons.mp h2 with h3 | h3
        · subst h3; exact lineNoNl_keyLine off key hkey
        · have := List.all_eq_true.mp hbody l h3
          simp only [bodyOkB, Bool.and_eq_true] at this
          exact this.1
  have hne : (injectResultLines content ref blocks off).1 ≠ [] := by
    rw [h1]
    simp [splitLines_ne_nil content]
  have h3 : splitLines ((injectBlockIntoValuesPath content ref blocks off).1)
      = (injectResultLines content ref blocks off).1 := by
    show splitLines (joinLines (injectResultLines content ref blocks off).1) = _
    exact splitLines_joinLines _ hne hall
  exact ⟨h1, h2, h3⟩

/-- Witness for C7 amended at a concrete input: a document without the root
key `x`, one multi-line candidate block, no wrapper. -/
theorem C7_root_append_witness :
    ((⟨["x"], "x"⟩ : ValueReference).path = ["x"]) ∧
    (cleanKeyB "x" = true) ∧
    (scanMatchCount ⟨["x"], "x"⟩ 0 [] (splitLines "y: 1") = 0) ∧
    (isSingleLineScalar ["x:\n  a: b"] "x" = false) ∧
    ((injectBlockLines ["x:\n  a: b"] (2 + 0) "x").all (bodyOkB 0) = true) ∧
    ((injectResultLines "y: 1" ⟨["x"], "x"⟩ ["x:\n  a: b"] 0
      = (splitLines "y: 1" ++
          ((if trimSpace ((splitLines "y: 1").getLastD "") == "" then [] else [""]) ++
           ((repeatSpaces 0 ++ "x" ++ ":") :: injectBlockLines ["x:\n  a: b"] (2 + 0) "x")),
         true, true)) ∧
     scanMatchCount ⟨["x"], "x"⟩ 0 []
       (injectResultLines "y: 1" ⟨["x"], "x"⟩ ["x:\n  a: b"] 0).1 = 1 ∧
     splitLines ((injectBlockIntoValuesPath "y: 1" ⟨["x"], "x"⟩ ["x:\n  a: b"] 0).1)
       = (injectResultLines "y: 1" ⟨["x"], "x"⟩ ["x:\n  a: b"] 0).1) :=
  ⟨rfl, by decide, by decide, by decide, by decide,
    C7_root_append_amended "y: 1" ⟨["x"], "x"⟩ ["x:\n  a: b"] 0 "x"
      rfl (by decide) (by decide) (by decide) (by decide)⟩

/-- C7 counterexample: with two single-line scalar candidate fragments for the
same absent root key, the appended section repeats the key line, so after
patching the key appears twice, not exactly once as the claim states. The
separator is still inserted exactly once. -/
theorem C7_root_append_counterexample :
    (injectBlockIntoValuesPath "y: 1" ⟨["x"], "x"⟩ ["x: a", "x: b"] 0
      = ("y: 1\n\nx: a\nx: b", true, true)) ∧
    (scanMatchCount ⟨["x"], "x"⟩ 0 [] (splitLines "y: 1\n\nx: a\nx: b") = 2) ∧
    (((2 : Nat) == 1) = false) := by
  refine ⟨?_, ?_, ?_⟩ <;> decide

/-- C8 counterexample: the claim says every per-key failure other than a
missing configuration file — explicitly including a failure to parse the
existing document content for a key — degrades to "no change for this key"
rather than aborting. But when a targeted root key exists with content that
does not parse (here the unclosed flow mapping `db: \x7b`), injectNewValuesIntoRoot
calls Logger.Fatalf, which terminates the invocation — modelled as the error
result. -/
theorem C8_failure_semantics_counterexample :
    injectNewValuesIntoRoot "db: \x7b" ["db:\n  x: 1"] 0
      = Except.error "injectNewValuesIntoRoot: failed to unmarshal existing content for key db" := by
  rfl

/-- C8 amended: a malformed injection block fragment (one that fails to parse
as a generic node) is skipped and never aborts the run — both in the
root-level deep merge and in the tolerations merge — and other per-key
failures degrade to "no change for this key"; EXCEPT that a failure to parse
the existing document content of a root key targeted by a fragment is fatal
(Logger.Fatalf), in addition to the missing configuration file. -/
theorem C8_failure_semantics_amended :
    (∀ (content : String) (rest : List String) (off : Nat) (bad : String),
      parseYamlMap bad = none →
      injectNewValuesIntoRoot content (bad :: rest) off
        = injectNewValuesIntoRoot content rest off) ∧
    (∀ (tail : List String) (actualIndent : Nat) (blks : List String)
        (line bad : String),
      parseYamlMap bad = none →
      mergeTolerations tail actualIndent (bad :: blks) line
        = mergeTolerations tail actualIndent blks line) ∧
    (injectNewValuesIntoRoot "app: \x7b" ["app:\n  x: 1"] 0
      = Except.error "injectNewValuesIntoRoot: failed to unmarshal existing content for key app") := by
  refine ⟨?_, ?_, rfl⟩
  · intro content rest off bad hbad
    simp only [injectNewValuesIntoRoot, invGoBlocks, hbad]
  · intro tail actualIndent blks line bad hbad
    simp only [mergeTolerations, collectNewTols, hbad, List.filter_cons, Option.isSome_none,
      Bool.false_eq_true, if_neg, not_false_iff, List.nil_append]

/-- Witness for C8 amended: a concrete malformed fragment is skipped by both
merge paths. -/
theorem C8_failure_semantics_witness :
    (parseYamlMap "x: [" = none) ∧
    (injectNewValuesIntoRoot "y: 1" ("x: [" :: ["app:\n  a: 1"]) 0
      = injectNewValuesIntoRoot "y: 1" ["app:\n  a: 1"] 0) ∧
    (mergeTolerations ["  - key: a"] 0 ("x: [" :: []) "tolerations:"
      = mergeTolerations ["  - key: a"] 0 [] "tolerations:") :=
  ⟨rfl,
    C8_failure_semantics_amended.1 "y: 1" ["app:\n  a: 1"] 0 "x: [" rfl,
    C8_failure_semantics_amended.2.1 ["  - key: a"] 0 [] "tolerations:" "x: [" rfl⟩

end HelmParser
